import Mathlib

/-!
# Verification of the bronze incremental image build engine

Shallow embedding of the core of the `bronze` repository:

* `utils.ts`   — `hashTransformObject` (stable stringify + digest), `pathExists`
* `registry.ts` — `BronzeImageRegistry` / `BronzeImage` reconciliation
  (`addVersion`, `queueVersionOperation`, `queueRenameOperation`,
  `queueDeleteOperation`, `queueBrightnessMeasure`, `toObject`, `fromObject`,
  `isImageVersion`, `isImageVersionCollection`)
* `operation.ts` — `BronzeOperation` (operation kinds, `renameImageFile`,
  `measureBrightness` ordering)
* `constants.ts` + the runner (`prepareProfile`) — output path resolution.

JavaScript objects are modelled as insertion-ordered association lists,
machine numbers as `Int`/`Nat`, the filesystem as the list of existing
paths, and asynchronous completion futures as explicit outcome values.
-/

namespace Bronze

/-- A JavaScript value as it appears in configuration objects and parsed
JSON snapshots: `undefined`, strings, (integral) numbers, booleans and
plain objects.  Objects are insertion-ordered association lists, matching
JavaScript property order; property lookup takes the first binding. -/
inductive JSVal where
  | undef : JSVal
  | str : String → JSVal
  | num : Int → JSVal
  | bool : Bool → JSVal
  | obj : List (String × JSVal) → JSVal

/-- JavaScript truthiness: `undefined`, `""` and `0` are falsy, objects are
always truthy. -/
def truthy : JSVal → Bool
  | .undef => false
  | .str s => !(s == "")
  | .num n => !(n == 0)
  | .bool b => b
  | .obj _ => true

/-- Property access `v[k]`: on a non-object (for the keys used here) and on
a missing key it yields `undefined`. -/
def jsGet (v : JSVal) (k : String) : JSVal :=
  match v with
  | .obj fs => (fs.lookup k).getD JSVal.undef
  | _ => JSVal.undef

/-- The own enumerable properties iterated by a `for..in` loop: the fields
of an object in insertion order, nothing for primitives. -/
def jsFields : JSVal → List (String × JSVal)
  | .obj fs => fs
  | _ => []

/-- `typeof v === "object"` (for the values of this model). -/
def isObjType : JSVal → Bool
  | .obj _ => true
  | _ => false

mutual

/-- Well-formed JSON value (the domain of transform-configuration objects):
no `undefined` anywhere and no duplicate keys in any object, as for any
object produced by parsing or writing JSON. -/
def wf : JSVal → Bool
  | .undef => false
  | .str _ => true
  | .num _ => true
  | .bool _ => true
  | .obj fs => decide (fs.map Prod.fst).Nodup && wfFields fs

/-- All field values of an association list are well-formed. -/
def wfFields : List (String × JSVal) → Bool
  | [] => true
  | (_, v) :: fs => wf v && wfFields fs

end

/-- Deep equality of two JS values regardless of key insertion order:
scalars must be identical, and objects must bind the same set of keys to
deeply-equal values. -/
inductive DeepEq : JSVal → JSVal → Prop where
  | undef : DeepEq .undef .undef
  | str (s : String) : DeepEq (.str s) (.str s)
  | num (n : Int) : DeepEq (.num n) (.num n)
  | bool (b : Bool) : DeepEq (.bool b) (.bool b)
  | obj (fs₁ fs₂ : List (String × JSVal))
      (hkeys : ∀ k : String, (fs₁.lookup k).isSome = (fs₂.lookup k).isSome)
      (hvals : ∀ (k : String) (v₁ v₂ : JSVal),
        fs₁.lookup k = some v₁ → fs₂.lookup k = some v₂ → DeepEq v₁ v₂) :
      DeepEq (.obj fs₁) (.obj fs₂)

/-- Lexicographic order on character lists by code point, the order in which
string keys are sorted for the canonical serialization.  (Defined from
scratch so that it evaluates by kernel reduction.) -/
def charsLe : List Char → List Char → Bool
  | [], _ => true
  | _ :: _, [] => false
  | c :: cs, d :: ds =>
    if c.toNat < d.toNat then true
    else if d.toNat < c.toNat then false
    else charsLe cs ds

/-- Key order used by the canonical serialization: compare field keys. -/
def keyLe (a b : String × JSVal) : Prop := charsLe a.1.data b.1.data = true

/-- Strict key order on fields: key order together with distinct keys. -/
def keyLt (a b : String × JSVal) : Prop := keyLe a b ∧ a.1 ≠ b.1

instance : DecidableRel keyLe := fun a b =>
  inferInstanceAs (Decidable (charsLe a.1.data b.1.data = true))

mutual

/-- Canonical form of a JS value: every object's fields sorted by key,
recursively.  `safe-stable-stringify` serializes objects in exactly this
key order. -/
def canon : JSVal → JSVal
  | .undef => .undef
  | .str s => .str s
  | .num n => .num n
  | .bool b => .bool b
  | .obj fs => .obj (List.insertionSort keyLe (canonFields fs))

/-- Canonicalize every field value of an association list. -/
def canonFields : List (String × JSVal) → List (String × JSVal)
  | [] => []
  | (k, v) :: fs => (k, canon v) :: canonFields fs

end

/-! ### Decimal rendering of integers (as in `JSON.stringify` of a number) -/

/-- The decimal digit character for `d < 10`. -/
def digitChar : Nat → Char
  | 0 => '0' | 1 => '1' | 2 => '2' | 3 => '3' | 4 => '4'
  | 5 => '5' | 6 => '6' | 7 => '7' | 8 => '8' | 9 => '9'
  | _ => '0'

/-- Decimal digits with an explicit fuel bound (structural recursion so that
the definition evaluates by kernel reduction). -/
def natCharsFuel : Nat → Nat → List Char
  | 0, _ => []
  | fuel + 1, n =>
    if n < 10 then [digitChar n]
    else natCharsFuel fuel (n / 10) ++ [digitChar (n % 10)]

/-- Decimal representation of a natural number, most significant digit first. -/
def natChars (n : Nat) : List Char := natCharsFuel (n + 1) n

/-- Numeric value of a digit character. -/
def chVal (c : Char) : Nat := c.toNat - 48

/-- Value of a most-significant-first digit string. -/
def digitsVal (l : List Char) : Nat := l.foldl (fun a c => 10 * a + chVal c) 0

/-- The head of `r` (if any) is not a digit. -/
def nonDigitHead (r : List Char) : Prop := ∀ c, r.head? = some c → c.isDigit = false

/-! ### String escaping (as in `JSON.stringify` of a string) -/

/-- Escape quote and backslash characters, as JSON string serialization does. -/
def escChars : List Char → List Char
  | [] => []
  | c :: cs => if c = '"' ∨ c = '\\' then '\\' :: c :: escChars cs else c :: escChars cs

/-! ### Compact JSON rendering

Characters of the compact JSON serialization of a value whose objects are
already in canonical key order — composing `render` with `canon` models what
the external `safe-stable-stringify` dependency produces. -/
mutual

/-- Characters of the compact JSON serialization of a value. -/
def render : JSVal → List Char
  | .undef => []
  | .str s => '"' :: (escChars s.data ++ ['"'])
  | .num n => if n < 0 then '-' :: natChars n.natAbs else natChars n.toNat
  | .bool b => if b then ['t', 'r', 'u', 'e'] else ['f', 'a', 'l', 's', 'e']
  | .obj fs => '\x7b' :: (renderFields fs ++ ['\x7d'])

/-- Comma-separated `"key":value` serializations of an object's fields. -/
def renderFields : List (String × JSVal) → List Char
  | [] => []
  | [(k, v)] => '"' :: (escChars k.data ++ '"' :: ':' :: render v)
  | (k, v) :: fs => '"' :: (escChars k.data ++ '"' :: ':' :: (render v ++ ',' :: renderFields fs))

end

/-- What follows the last rendered field of an object: nothing for the last
field, a comma and the remaining fields otherwise. -/
def fieldTail (fs : List (String × JSVal)) : List Char :=
  match fs with
  | [] => []
  | _ => ',' :: renderFields fs

/-- A character list that may legally follow a rendered value inside an
object or at top level: empty, or starting with a comma or closing brace. -/
def validTail : List Char → Prop
  | [] => True
  | c :: _ => c = ',' ∨ c = '\x7d'

/-- Coarse classification of a serialization's first character, used to
distinguish renderings of values of different shapes. -/
def classify (c : Char) : Nat :=
  if c = '"' then 0
  else if c.isDigit ∨ c = '-' then 1
  else if c = 't' ∨ c = 'f' then 2
  else if c = '\x7b' then 3
  else 4

/-- The shape of a JS value, aligned with `classify`. -/
def kindOf : JSVal → Nat
  | .undef => 4
  | .str _ => 0
  | .num _ => 1
  | .bool _ => 2
  | .obj _ => 3

/-! ### `hashTransformObject` (utils.ts) -/

/-- Model of the external `safe-stable-stringify` dependency: compact JSON
serialization with every object's keys in sorted order (deterministic and
insertion-order independent). -/
def stableStringify (v : JSVal) : String := String.mk (render (canon v))

/-- `hashTransformObject` from `utils.ts`: the digest of the stable
stringification of the transform configuration object.  The external
`crypto` md5 digest is passed as a function parameter; the collision
freeness that the fingerprint comparison relies on appears as a
`Function.Injective digest` hypothesis where it is needed. -/
def hashTransformObject (digest : String → String) (obj : JSVal) : String :=
  digest (stableStringify obj)

/-! ### operation.ts: operation kinds and operation records -/

/-- The operation kinds of `operation.ts`. -/
inductive BronzeOperationType where
  | NOOP
  | GENERATE
  | DELETE
  | RENAME
  | RETRIEVE_SIZE
  | MEASURE_BRIGHTNESS
deriving DecidableEq

/-- A `BronzeOperation` record: kind, optional version id, optional target
path and optional transform payload.  (The back-reference to the owning
image is the enclosing image state in this model; the one-shot completion
future is modelled by the outcome values passed to the run phase.) -/
structure BronzeOperation where
  type : BronzeOperationType
  version : Option String := none
  targetPath : Option String := none
  transform : Option JSVal := none

/-- A `BronzeImageVersion` record from `registry.ts`. -/
structure BronzeImageVersion where
  id : String
  format : String
  transform : String
  path : String
  hash : String
  width : Option Nat := none
  height : Option Nat := none
  op : Option BronzeOperation := none

/-- An image's `versions` map: version id to version record, in insertion
order, as a JavaScript object. -/
abbrev VersionMap := List (String × BronzeImageVersion)

/-- `pathExists` from `utils.ts`: the file system is the list of paths of
the files that currently exist. -/
def pathExists (fs : List String) (p : String) : Bool := fs.contains p

/-- In-place update of the entry with the given key (JavaScript property
assignment on an existing key keeps insertion order). -/
def vUpdate (versionId : String) (f : BronzeImageVersion → BronzeImageVersion)
    (m : VersionMap) : VersionMap :=
  m.map (fun kv => if kv.1 == versionId then (kv.1, f kv.2) else kv)

/-- The operation built by `BronzeImage.queueRenameOperation`. -/
def queueRenameOperation (versionId newPath : String) : BronzeOperation :=
  { type := .RENAME, version := some versionId, targetPath := some newPath }

/-- The operation built by `BronzeImage.queueDeleteOperation`. -/
def queueDeleteOperation (versionId path : String) : BronzeOperation :=
  { type := .DELETE, version := some versionId, targetPath := some path }

/-- `BronzeImage.queueVersionOperation`: builds a GENERATE operation whose
target is the version's current path, stores a reference to it in the
version record (`versions[versionId].op = op`) and appends it to the queue.
The `none` branch is unreachable in the source (property access on a
missing version would throw). -/
def queueVersionOperation (versionId : String) (transform : JSVal)
    (versions : VersionMap) : VersionMap × List BronzeOperation :=
  match versions.lookup versionId with
  | none => (versions, [])
  | some v =>
    let op : BronzeOperation :=
      { type := .GENERATE, version := some versionId,
        targetPath := some v.path, transform := some transform }
    (vUpdate versionId (fun w => { w with op := some op }) versions, [op])

/-- `BronzeImage.addVersion` from `registry.ts` (the revision with RENAME
support): reconciles one declared (transform, format, destination path,
transform object) against the stored version map and the file system, and
returns the updated version map together with the operations queued by this
call (the source pushes them onto `this.pendingOps`). -/
def addVersion (digest : String → String) (versions : VersionMap) (fs : List String)
    (transformName formatName path : String) (transformObj : JSVal) :
    VersionMap × List BronzeOperation :=
  let versionId := transformName ++ "-" ++ formatName
  let transformHash := hashTransformObject digest transformObj
  match versions.lookup versionId with
  | some v =>
    if pathExists fs v.path then
      if transformHash ≠ v.hash then
        let ops₀ := [queueDeleteOperation versionId v.path]
        let versions₁ := vUpdate versionId (fun w => { w with path := path }) versions
        let res := queueVersionOperation versionId transformObj versions₁
        (res.1, ops₀ ++ res.2)
      else
        if path ≠ v.path then (versions, [queueRenameOperation versionId path])
        else (versions, [])
    else
      let versions₁ := vUpdate versionId (fun w => { w with path := path }) versions
      let res := queueVersionOperation versionId transformObj versions₁
      (res.1, res.2)
  | none =>
    let v₀ : BronzeImageVersion :=
      { id := versionId, transform := transformName, format := formatName,
        path := path, hash := transformHash }
    let versions₁ := versions ++ [(versionId, v₀)]
    let res := queueVersionOperation versionId transformObj versions₁
    (res.1, res.2)

/-- One declared (transform, format) combination for an image, as the
planner's loops in `prepareProfile` present it to `addVersion`. -/
structure VersionRequest where
  transformName : String
  formatName : String
  path : String
  transformObj : JSVal

/-- One planning pass over an image: `addVersion` for every declared
combination, accumulating the queued operations in order. -/
def runAddVersions (digest : String → String) (versions : VersionMap) (fs : List String) :
    List VersionRequest → VersionMap × List BronzeOperation
  | [] => (versions, [])
  | c :: rest =>
    let res₁ := addVersion digest versions fs c.transformName c.formatName c.path c.transformObj
    let res₂ := runAddVersions digest res₁.1 fs rest
    (res₂.1, res₁.2 ++ res₂.2)

/-- `BronzeOperation.renameImageFile`: `fs.rename` the version's current
file to the target; on success (the old file exists) the version's stored
path is updated; on failure nothing changes and the error is reported. -/
def renameImageFile (versions : VersionMap) (fs : List String)
    (versionId target : String) : Except Unit (VersionMap × List String) :=
  match versions.lookup versionId with
  | none => .error ()
  | some v =>
    if fs.contains v.path then
      .ok (vUpdate versionId (fun w => { w with path := target }) versions,
           target :: fs.erase v.path)
    else .error ()

/-- Effect of successfully executing one operation on the version map and
file system: GENERATE writes the target file and reports width/height back
to the version record (the `op.promise.then` handler), DELETE unlinks its
target, RENAME moves the file and updates the stored path (errors are
caught by the runner and leave the state unchanged).  RETRIEVE_SIZE and
MEASURE_BRIGHTNESS only touch image-level metadata. -/
def applyOp (genInfo : String → Nat × Nat) (st : VersionMap × List String)
    (op : BronzeOperation) : VersionMap × List String :=
  match op.type with
  | .GENERATE =>
    let target := op.targetPath.getD ""
    let versions :=
      match op.version with
      | some vid =>
        vUpdate vid
          (fun w => { w with width := some (genInfo vid).1, height := some (genInfo vid).2 })
          st.1
      | none => st.1
    (versions, if st.2.contains target then st.2 else target :: st.2)
  | .DELETE => (st.1, st.2.erase (op.targetPath.getD ""))
  | .RENAME =>
    match op.version, op.targetPath with
    | some vid, some target =>
      match renameImageFile st.1 st.2 vid target with
      | .ok st₂ => st₂
      | .error _ => st
    | _, _ => st
  | _ => st

/-- Run all queued operations (all succeeding), in queue order. -/
def applyOps (genInfo : String → Nat × Nat) (st : VersionMap × List String)
    (ops : List BronzeOperation) : VersionMap × List String :=
  ops.foldl (applyOp genInfo) st

/-- The effect of the snapshot round trip on a version map: `toObject`
deletes every `op` reference and `fromObject` restores the remaining
fields unchanged. -/
def clearOps (versions : VersionMap) : VersionMap :=
  versions.map (fun kv => (kv.1, { kv.2 with op := none }))

/-! ### operation.ts: measureBrightness -/

/-- JavaScript comparison `width < smallestWidth` inside the smallest
version scan: `smallestWidth` is `null` initially (`none` here) and may be
`undefined` (`some none`) after visiting a version without a width; a
comparison against `null`, against `undefined`, or with an `undefined`
width is false for the natural-number widths that occur. -/
def jsWidthLt (w : Option Nat) (smallest : Option (Option Nat)) : Bool :=
  match smallest with
  | none => false
  | some none => false
  | some (some m) =>
    match w with
    | some n => decide (n < m)
    | none => false

/-- The smallest-width version scan at the start of
`BronzeOperation.measureBrightness`, iterating the versions map in
insertion order. -/
def smallestVersionId (versions : VersionMap) : Option String :=
  (versions.foldl
    (fun acc kv =>
      if jsWidthLt kv.2.width acc.1 || acc.1.isNone then (some kv.2.width, some kv.1)
      else acc)
    ((none : Option (Option Nat)), (none : Option String))).2

/-- Observable events of a brightness measurement: awaiting the sampled
version's GENERATE future, and reading the sampled file with sharp. -/
inductive BrightnessEvent where
  | await (versionId : String)
  | readFile (path : String)
deriving DecidableEq

/-- `BronzeOperation.measureBrightness`: finds the smallest version, awaits
its in-flight GENERATE operation's future if there is one (`await
op.promise` rethrows the operation's failure), and only then samples the
version's file.  `resolve` gives the outcome each operation's completion
future settles with; the returned event list is the order of the awaited
future and the file read. -/
def measureBrightness (versions : VersionMap)
    (resolve : BronzeOperation → Except Unit Unit) :
    List BrightnessEvent × Except Unit Unit :=
  match smallestVersionId versions with
  | none => ([], .error ())
  | some vid =>
    match versions.lookup vid with
    | none => ([], .error ())
    | some v =>
      match v.op with
      | some op =>
        match resolve op with
        | .error e => ([.await vid], .error e)
        | .ok _ => ([.await vid, .readFile v.path], .ok ())
      | none => ([.readFile v.path], .ok ())

/-! ### registry.ts: queueBrightnessMeasure and toObject -/

/-- JavaScript falsiness of the cached `brightness` number: absent or `0`. -/
def numFalsy : Option Int → Bool
  | none => true
  | some n => n == 0

/-- JavaScript falsiness of the cached `dominant` descriptor: it is an
object when present, so it is falsy exactly when absent. -/
def objFalsy : Option JSVal → Bool
  | none => true
  | some _ => false

/-- `BronzeImage.queueBrightnessMeasure`: pushes a MEASURE_BRIGHTNESS
operation when `!this.brightness || !this.dominant`. -/
def queueBrightnessMeasure (brightness : Option Int) (dominant : Option JSVal)
    (pendingOps : List BronzeOperation) : List BronzeOperation :=
  if numFalsy brightness || objFalsy dominant then
    pendingOps ++ [{ type := .MEASURE_BRIGHTNESS }]
  else pendingOps

/-- The live, in-memory `BronzeImage` state. -/
structure BronzeImage where
  id : String
  src : String
  versions : VersionMap
  width : Option Nat := none
  height : Option Nat := none
  brightness : Option Int := none
  dominant : Option JSVal := none

/-- The plain snapshot object returned by `BronzeImage.toObject`. -/
structure BronzeImageObj where
  id : String
  src : String
  width : Option Nat
  height : Option Nat
  brightness : Option Int
  dominant : Option JSVal
  versions : VersionMap

/-- `BronzeImage.toObject`: first deletes the `op` reference from every
entry of the live `versions` map (a mutation of the instance, to break the
circular structure), then returns the export object sharing that mutated
map.  The result is the mutated image state together with the returned
object. -/
def BronzeImage.toObject (img : BronzeImage) : BronzeImage × BronzeImageObj :=
  let versionsM := clearOps img.versions
  ({ img with versions := versionsM },
   { id := img.id, src := img.src, width := img.width, height := img.height,
     brightness := img.brightness, dominant := img.dominant, versions := versionsM })

/-! ### registry.ts: deserialization (fromObject and the type guards) -/

/-- The type guard `isImageVersion`: `typeof v === "object"` and truthy
`id`, `format`, `transform`, `path` and `hash` properties. -/
def isImageVersion (v : JSVal) : Bool :=
  isObjType v && truthy (jsGet v "id") && truthy (jsGet v "format") &&
    truthy (jsGet v "transform") && truthy (jsGet v "path") && truthy (jsGet v "hash")

/-- The type guard `isImageVersionCollection`: every entry enumerated by
`for..in` passes `isImageVersion`. -/
def isImageVersionCollection (o : JSVal) : Bool :=
  (jsFields o).all (fun kv => isImageVersion kv.2)

/-- A `BronzeImage` as rebuilt by `BronzeImage.fromObject` from raw JSON
snapshot data (the fields are passed through as found in the snapshot). -/
structure BronzeImageData where
  id : String
  src : JSVal
  versions : JSVal
  width : JSVal
  height : JSVal
  brightness : JSVal
  dominant : JSVal

/-- `BronzeImage.fromObject`: throws for a missing/falsy `src` or
`versions`, throws for a malformed version collection, and otherwise builds
the image from the data. -/
def imageFromObject (id : String) (data : JSVal) : Except String BronzeImageData :=
  if ¬ truthy (jsGet data "src") then .error "No src property"
  else if ¬ truthy (jsGet data "versions") then .error "No versions property"
  else if isImageVersionCollection (jsGet data "versions") then
    .ok { id := id, src := jsGet data "src", versions := jsGet data "versions",
          width := jsGet data "width", height := jsGet data "height",
          brightness := jsGet data "brightness", dominant := jsGet data "dominant" }
  else .error "Malformed versions property"

/-- The registry as rebuilt by `BronzeImageRegistry.fromObject`. -/
structure BronzeImageRegistryData where
  basepath : JSVal
  images : List (String × BronzeImageData)

/-- `BronzeImageRegistry.fromObject`: throws for a missing/falsy `basepath`
or `images`; then, for each entry of `data.images`, tries
`BronzeImage.fromObject` and silently skips entries that throw
(`try ... catch(e) {}`), indexing the kept images by their id. -/
def registryFromObject (data : JSVal) : Except String BronzeImageRegistryData :=
  if ¬ truthy (jsGet data "basepath") then .error "No basepath property"
  else if ¬ truthy (jsGet data "images") then .error "No image property"
  else .ok { basepath := jsGet data "basepath",
             images := (jsFields (jsGet data "images")).filterMap
               (fun kv => (imageFromObject kv.1 kv.2).toOption.map (fun im => (im.id, im))) }

/-! ### constants.ts and the output path resolution of prepareProfile -/

/-- `ALLOWED_FORMATS` from `constants.ts`. -/
def ALLOWED_FORMATS : List String := ["jpeg", "webp"]

/-- `FORMAT_EXTS` from `constants.ts`: `jpeg` maps to `jpg` and `webp` to
`webp`.  A format outside the map would give `undefined`, which string
concatenation renders as `"undefined"`; this is unreachable behind the
`ALLOWED_FORMATS` check. -/
def FORMAT_EXTS (formatName : String) : String :=
  if formatName == "jpeg" then "jpg"
  else if formatName == "webp" then "webp"
  else "undefined"

/-- `DEFAULTS.transformDest` from `constants.ts`. -/
def DEFAULTS_transformDest : String := "$\x7bsourceName\x7d-$\x7btransformName\x7d"

/-- JavaScript `a || b` for an optional string configuration value: the
default is used when the value is absent or empty (falsy). -/
def strOr (a : Option String) (b : String) : String :=
  match a with
  | some s => if s == "" then b else s
  | none => b

/-- Model of the external `es6-dynamic-template` `fillTemplate`: replaces
every `$`-brace-delimited name by its binding (a missing binding renders as
`undefined`, as JavaScript would).  The fuel argument (initialized to the
template length, which always suffices) makes the recursion structural so
that the definition evaluates by kernel reduction. -/
def fillTemplateFuel (vars : List (String × String)) : Nat → List Char → List Char
  | 0, _ => []
  | _ + 1, [] => []
  | fuel + 1, '$' :: '\x7b' :: rest =>
    let name := rest.takeWhile (fun c => c ≠ '\x7d')
    let rest₂ := (rest.dropWhile (fun c => c ≠ '\x7d')).drop 1
    ((vars.lookup (String.mk name)).getD "undefined").data ++ fillTemplateFuel vars fuel rest₂
  | fuel + 1, c :: rest => c :: fillTemplateFuel vars fuel rest

/-- `fillTemplate` on strings. -/
def fillTemplate (template : String) (vars : List (String × String)) : String :=
  String.mk (fillTemplateFuel vars template.data.length template.data)

/-- Model of node's `path.join` for the plain relative segments used here. -/
def pathJoin (a b : String) : String :=
  if a == "" then b else if b == "" then a else a ++ "/" ++ b

/-- Decimal string of the numeric `sourceIndex` template variable. -/
def natToString (n : Nat) : String := String.mk (natChars n)

/-- The output path computation of `prepareProfile` for one
(transform, format) combination: the destination template is the profile's
destination folder joined with the transform's `dest` or the default
template; the template is filled with `sourceName`, `sourceFolder`,
`sourceIndex` and `transformName`; a format outside `ALLOWED_FORMATS` is
silently skipped (`none`); otherwise the file path is the filled template
followed by a dot and the format's fixed extension. -/
def resolveOutputPath (destFolder : String) (destTemplate : Option String)
    (sourceName sourceFolder : String) (sourceIndex : Nat)
    (transformName formatName : String) : Option String :=
  if ALLOWED_FORMATS.contains formatName then
    let destPathTemplate := pathJoin destFolder (strOr destTemplate DEFAULTS_transformDest)
    let outputPathWOExt := fillTemplate destPathTemplate
      [("sourceName", sourceName), ("sourceFolder", sourceFolder),
       ("sourceIndex", natToString sourceIndex), ("transformName", transformName)]
    some (outputPathWOExt ++ "." ++ FORMAT_EXTS formatName)
  else none

/-- A transform configuration object as built by `prepareProfile`. -/
def c6ConfigA : JSVal :=
  .obj [("formatName", .str "jpeg"), ("formatOptions", .obj []),
        ("resize", .obj [("width", .num 200)])]

/-- The same configuration with a different key insertion order. -/
def c6ConfigB : JSVal :=
  .obj [("resize", .obj [("width", .num 200)]), ("formatOptions", .obj []),
        ("formatName", .str "jpeg")]

/-- The identity digest, an injective instance of the md5 model. -/
def identityDigest : String → String := fun s => s

/-- Transform object of the §8 scenario, resize width 200. -/
def scenarioT200 : JSVal :=
  .obj [("formatName", .str "jpeg"), ("formatOptions", .obj []),
        ("resize", .obj [("width", .num 200)])]

/-- The same transform after the configuration change to width 300. -/
def scenarioT300 : JSVal :=
  .obj [("formatName", .str "jpeg"), ("formatOptions", .obj []),
        ("resize", .obj [("width", .num 300)])]

/-- The fingerprint stored for the version generated with width 200. -/
def scenarioHash200 : String := hashTransformObject identityDigest scenarioT200

/-- Registry state after the first two runs of the §8 scenario: one version
`thumb-jpeg` at `out/a-thumb.jpg` with the width-200 fingerprint. -/
def scenarioVersions : VersionMap :=
  [("thumb-jpeg",
    { id := "thumb-jpeg", format := "jpeg", transform := "thumb",
      path := "out/a-thumb.jpg", hash := scenarioHash200,
      width := some 200, height := some 160 })]

/-- File system before the third run: source and generated file exist. -/
def scenarioFS : List String := ["in/a.jpg", "out/a-thumb.jpg"]

/-- The third run's declared combination: same destination path, the
transform changed to width 300. -/
def scenarioRequest300 : VersionRequest :=
  ⟨"thumb", "jpeg", "out/a-thumb.jpg", scenarioT300⟩

/-! ### Theorems -/

theorem char_toNat_inj {a b : Char} (h : a.toNat = b.toNat) : a = b :=
  Char.eq_of_val_eq (UInt32.toNat.inj h)

theorem charsLe_total : ∀ a b : List Char, charsLe a b = true ∨ charsLe b a = true
  | [], _ => Or.inl rfl
  | _ :: _, [] => Or.inr rfl
  | c :: cs, d :: ds => by
    rcases Nat.lt_trichotomy c.toNat d.toNat with h | h | h
    · left; simp [charsLe, h]
    · rcases charsLe_total cs ds with ih | ih
      · left; simp [charsLe, h, ih]
      · right; simp [charsLe, h.symm, ih]
    · right; simp [charsLe, h]

theorem charsLe_trans : ∀ {a b c : List Char},
    charsLe a b = true → charsLe b c = true → charsLe a c = true
  | [], _, _, _, _ => rfl
  | _ :: _, [], _, h, _ => by simp [charsLe] at h
  | _ :: _, _ :: _, [], _, h => by simp [charsLe] at h
  | x :: xs, y :: ys, z :: zs, h₁, h₂ => by
    simp only [charsLe] at h₁ h₂ ⊢
    rcases Nat.lt_trichotomy x.toNat y.toNat with hxy | hxy | hxy
    · rcases Nat.lt_trichotomy y.toNat z.toNat with hyz | hyz | hyz
      · rw [if_pos (by omega)]
      · rw [if_pos (by omega)]
      · rw [if_neg (by omega), if_pos hyz] at h₂
        exact absurd h₂ (by simp)
    · rw [if_neg (by omega), if_neg (by omega)] at h₁
      rcases Nat.lt_trichotomy y.toNat z.toNat with hyz | hyz | hyz
      · rw [if_pos (by omega)]
      · rw [if_neg (by omega), if_neg (by omega)] at h₂ ⊢
        exact charsLe_trans h₁ h₂
      · rw [if_neg (by omega), if_pos hyz] at h₂
        exact absurd h₂ (by simp)
    · rw [if_neg (by omega), if_pos hxy] at h₁
      exact absurd h₁ (by simp)

theorem charsLe_antisymm : ∀ {a b : List Char},
    charsLe a b = true → charsLe b a = true → a = b
  | [], [], _, _ => rfl
  | [], _ :: _, _, h => by simp [charsLe] at h
  | _ :: _, [], h, _ => by simp [charsLe] at h
  | x :: xs, y :: ys, h₁, h₂ => by
    simp only [charsLe] at h₁ h₂
    rcases Nat.lt_trichotomy x.toNat y.toNat with hxy | hxy | hxy
    · rw [if_neg (by omega), if_pos hxy] at h₂; exact absurd h₂ (by simp)
    · rw [if_neg (by omega), if_neg (by omega)] at h₁ h₂
      rw [char_toNat_inj hxy, charsLe_antisymm h₁ h₂]
    · rw [if_neg (by omega), if_pos hxy] at h₁; exact absurd h₁ (by simp)

instance : IsTotal (String × JSVal) keyLe := ⟨fun a b => charsLe_total a.1.data b.1.data⟩

instance : IsTrans (String × JSVal) keyLe := ⟨fun _ _ _ h₁ h₂ => charsLe_trans h₁ h₂⟩

instance : IsAntisymm (String × JSVal) keyLt :=
  ⟨fun a b h₁ h₂ => by
    obtain ⟨⟨d₁⟩, v₁⟩ := a
    obtain ⟨⟨d₂⟩, v₂⟩ := b
    have hdata : d₁ = d₂ := charsLe_antisymm h₁.1 h₂.1
    exact absurd (congrArg String.mk hdata) h₁.2⟩

/-! ### Association-list infrastructure -/
theorem lookup_mem {α β : Type} [BEq α] [LawfulBEq α] {l : List (α × β)} {k : α} {v : β}
    (h : l.lookup k = some v) : (k, v) ∈ l := by
  rw [List.lookup_eq_some_iff] at h
  obtain ⟨l₁, l₂, rfl, -⟩ := h
  simp

theorem lookup_eq_some_iff_mem {α β : Type} [BEq α] [LawfulBEq α] {l : List (α × β)}
    (hnd : (l.map Prod.fst).Nodup) {k : α} {v : β} :
    l.lookup k = some v ↔ (k, v) ∈ l := by
  induction l with
  | nil => simp
  | cons p l ih =>
    obtain ⟨k₁, v₁⟩ := p
    simp only [List.map_cons, List.nodup_cons, List.mem_map] at hnd
    by_cases h : k = k₁
    · subst h
      simp only [List.lookup_cons, beq_self_eq_true, List.mem_cons]
      constructor
      · intro hv
        exact Or.inl (by simpa using congrArg (Prod.mk k) (Option.some.inj hv).symm)
      · rintro (hv | hmem)
        · cases hv; rfl
        · exact absurd ⟨(k, v), hmem, rfl⟩ hnd.1
    · have hbeq : (k == k₁) = false := beq_eq_false_iff_ne.mpr h
      simp only [List.lookup_cons, hbeq, List.mem_cons, ih hnd.2]
      constructor
      · exact Or.inr
      · rintro (hv | hmem)
        · exact absurd (congrArg Prod.fst hv) h
        · exact hmem

theorem lookup_perm {α β : Type} [BEq α] [LawfulBEq α] {l₁ l₂ : List (α × β)}
    (hp : l₁.Perm l₂) (hnd : (l₁.map Prod.fst).Nodup) (k : α) :
    l₁.lookup k = l₂.lookup k := by
  have hnd₂ : (l₂.map Prod.fst).Nodup := ((hp.map Prod.fst).nodup_iff).mp hnd
  cases h₁ : l₁.lookup k with
  | some v =>
    rw [lookup_eq_some_iff_mem hnd] at h₁
    exact ((lookup_eq_some_iff_mem hnd₂).mpr (hp.mem_iff.mp h₁)).symm
  | none =>
    symm
    rw [List.lookup_eq_none_iff] at h₁ ⊢
    exact fun p hmem => h₁ p (hp.mem_iff.mpr hmem)

/-! ### Facts about `canon`, `wf` and `DeepEq` -/
theorem canonFields_map_fst (fs : List (String × JSVal)) :
    (canonFields fs).map Prod.fst = fs.map Prod.fst := by
  induction fs with
  | nil => simp [canonFields]
  | cons f fs ih =>
    obtain ⟨k, v⟩ := f
    simp [canonFields, ih]

theorem lookup_canonFields (fs : List (String × JSVal)) (k : String) :
    (canonFields fs).lookup k = (fs.lookup k).map canon := by
  induction fs with
  | nil => simp [canonFields]
  | cons f fs ih =>
    obtain ⟨k₁, v₁⟩ := f
    by_cases h : k == k₁ <;>
      simp [canonFields, List.lookup_cons, h, ih]

theorem wfFields_iff (fs : List (String × JSVal)) :
    wfFields fs = true ↔ ∀ kv ∈ fs, wf kv.2 = true := by
  induction fs with
  | nil => simp [wfFields]
  | cons f fs ih =>
    obtain ⟨k, v⟩ := f
    simp [wfFields, ih]

theorem wf_obj_nodup {fs : List (String × JSVal)} (h : wf (.obj fs) = true) :
    (fs.map Prod.fst).Nodup := by
  simp only [wf, Bool.and_eq_true, decide_eq_true_eq] at h
  exact h.1

theorem wf_of_lookup {fs : List (String × JSVal)} {k : String} {v : JSVal}
    (h : wf (.obj fs) = true) (hl : fs.lookup k = some v) : wf v = true := by
  simp only [wf, Bool.and_eq_true, decide_eq_true_eq] at h
  exact (wfFields_iff fs).mp h.2 (k, v) (lookup_mem hl)

theorem sizeOf_lookup_lt {fs : List (String × JSVal)} {k : String} {v : JSVal}
    (h : fs.lookup k = some v) : sizeOf v < sizeOf (JSVal.obj fs) := by
  have hm := List.sizeOf_lt_of_mem (lookup_mem h)
  simp only [Prod.mk.sizeOf_spec] at hm
  simp only [JSVal.obj.sizeOf_spec]
  omega

theorem deepEq_refl (v : JSVal) : DeepEq v v := by
  cases v with
  | undef => exact .undef
  | str s => exact .str s
  | num n => exact .num n
  | bool b => exact .bool b
  | obj fs =>
    refine .obj fs fs (fun _ => rfl) (fun k v₁ v₂ h₁ h₂ => ?_)
    have hv : v₁ = v₂ := Option.some.inj (h₁.symm.trans h₂)
    subst hv
    exact deepEq_refl v₁
termination_by sizeOf v
decreasing_by exact sizeOf_lookup_lt h₁

theorem deepEq_symm {a b : JSVal} (h : DeepEq a b) : DeepEq b a := by
  cases h with
  | undef => exact .undef
  | str s => exact .str s
  | num n => exact .num n
  | bool b => exact .bool b
  | obj fs₁ fs₂ hkeys hvals =>
    refine .obj fs₂ fs₁ (fun k => (hkeys k).symm) (fun k v₂ v₁ h₂ h₁ => ?_)
    exact deepEq_symm (hvals k v₁ v₂ h₁ h₂)
termination_by sizeOf a
decreasing_by exact sizeOf_lookup_lt h₁

theorem deepEq_trans {a b c : JSVal} (h₁ : DeepEq a b) (h₂ : DeepEq b c) : DeepEq a c :=
  match a, b, c, h₁, h₂ with
  | _, _, _, .undef, h₂ => h₂
  | _, _, _, .str _, h₂ => h₂
  | _, _, _, .num _, h₂ => h₂
  | _, _, _, .bool _, h₂ => h₂
  | _, _, _, .obj fs₁ fs₂ hk₁ hv₁, .obj _ fs₃ hk₂ hv₂ =>
    .obj fs₁ fs₃ (fun k => (hk₁ k).trans (hk₂ k)) (fun k v₁ v₃ l₁ l₃ => by
      have hs : (fs₂.lookup k).isSome = true := by rw [← hk₁ k, l₁]; rfl
      obtain ⟨v₂, l₂⟩ := Option.isSome_iff_exists.mp hs
      exact deepEq_trans (hv₁ k v₁ v₂ l₁ l₂) (hv₂ k v₂ v₃ l₂ l₃))
termination_by sizeOf a
decreasing_by exact sizeOf_lookup_lt l₁

theorem canonFields_eq_map (fs : List (String × JSVal)) :
    canonFields fs = fs.map (fun kv => (kv.1, canon kv.2)) := by
  induction fs with
  | nil => simp [canonFields]
  | cons f fs ih =>
    obtain ⟨k, v⟩ := f
    simp [canonFields, ih]

theorem sizeOf_mem_lt {fs : List (String × JSVal)} {k : String} {v : JSVal}
    (h : (k, v) ∈ fs) : sizeOf v < sizeOf (JSVal.obj fs) := by
  have hm := List.sizeOf_lt_of_mem h
  simp only [Prod.mk.sizeOf_spec] at hm
  simp only [JSVal.obj.sizeOf_spec]
  omega

theorem pairwise_keyLt_of_sorted {l : List (String × JSVal)}
    (hnd : (l.map Prod.fst).Nodup) (hs : List.Sorted keyLe l) : List.Pairwise keyLt l := by
  have hne : List.Pairwise (fun a b : String × JSVal => a.1 ≠ b.1) l := by
    simpa [List.Nodup, List.pairwise_map] using hnd
  exact (hs.and hne).imp (fun h => ⟨h.1, h.2⟩)

theorem wf_canon : ∀ {v : JSVal}, wf v = true → wf (canon v) = true
  | .undef, h => by simp [wf] at h
  | .str _, _ => by simp [canon, wf]
  | .num _, _ => by simp [canon, wf]
  | .bool _, _ => by simp [canon, wf]
  | .obj fs, h => by
    have hnd := wf_obj_nodup h
    have hperm : (List.insertionSort keyLe (canonFields fs)).Perm (canonFields fs) :=
      List.perm_insertionSort keyLe _
    have hnd₂ : ((List.insertionSort keyLe (canonFields fs)).map Prod.fst).Nodup := by
      refine ((hperm.map Prod.fst).nodup_iff).mpr ?_
      rw [canonFields_map_fst]; exact hnd
    simp only [canon, wf, Bool.and_eq_true, decide_eq_true_eq]
    refine ⟨hnd₂, ?_⟩
    rw [wfFields_iff]
    intro kv hmem
    rw [hperm.mem_iff, canonFields_eq_map, List.mem_map] at hmem
    obtain ⟨⟨k₀, v₀⟩, hmem₀, hkv⟩ := hmem
    have hwf₀ : wf v₀ = true := by
      simp only [wf, Bool.and_eq_true, decide_eq_true_eq] at h
      exact (wfFields_iff fs).mp h.2 (k₀, v₀) hmem₀
    have := wf_canon hwf₀
    rw [← hkv] at *
    simpa using this
termination_by v _ => sizeOf v
decreasing_by exact sizeOf_mem_lt hmem₀

theorem canon_eq_of_deepEq : ∀ {a b : JSVal},
    DeepEq a b → wf a = true → wf b = true → canon a = canon b
  | _, _, .undef, _, _ => rfl
  | _, _, .str _, _, _ => rfl
  | _, _, .num _, _, _ => rfl
  | _, _, .bool _, _, _ => rfl
  | _, _, .obj fs₁ fs₂ hkeys hvals, ha, hb => by
    have hnd₁ := wf_obj_nodup ha
    have hnd₂ := wf_obj_nodup hb
    have hcnd₁ : ((canonFields fs₁).map Prod.fst).Nodup := by
      rw [canonFields_map_fst]; exact hnd₁
    have hcnd₂ : ((canonFields fs₂).map Prod.fst).Nodup := by
      rw [canonFields_map_fst]; exact hnd₂
    have hperm₁ : (List.insertionSort keyLe (canonFields fs₁)).Perm (canonFields fs₁) :=
      List.perm_insertionSort keyLe _
    have hperm₂ : (List.insertionSort keyLe (canonFields fs₂)).Perm (canonFields fs₂) :=
      List.perm_insertionSort keyLe _
    have hsnd₁ : ((List.insertionSort keyLe (canonFields fs₁)).map Prod.fst).Nodup :=
      ((hperm₁.map Prod.fst).nodup_iff).mpr hcnd₁
    have hsnd₂ : ((List.insertionSort keyLe (canonFields fs₂)).map Prod.fst).Nodup :=
      ((hperm₂.map Prod.fst).nodup_iff).mpr hcnd₂
    have key : ∀ k, (fs₁.lookup k).map canon = (fs₂.lookup k).map canon := by
      intro k
      cases h₁ : fs₁.lookup k with
      | none =>
        have hk := hkeys k
        rw [h₁] at hk
        cases h₂ : fs₂.lookup k with
        | none => rfl
        | some v₂ => rw [h₂] at hk; simp at hk
      | some v₁ =>
        have hk := hkeys k
        rw [h₁] at hk
        cases h₂ : fs₂.lookup k with
        | none => rw [h₂] at hk; simp at hk
        | some v₂ =>
          have hd := hvals k v₁ v₂ h₁ h₂
          have hc : canon v₁ = canon v₂ :=
            canon_eq_of_deepEq hd (wf_of_lookup ha h₁) (wf_of_lookup hb h₂)
          simp [hc]
    simp only [canon]
    congr 1
    refine List.eq_of_perm_of_sorted (r := keyLt) ?_ ?_ ?_
    · refine (List.perm_ext_iff_of_nodup (hsnd₁.of_map _) (hsnd₂.of_map _)).mpr ?_
      intro ⟨k, v⟩
      rw [hperm₁.mem_iff, hperm₂.mem_iff,
        ← lookup_eq_some_iff_mem hcnd₁, ← lookup_eq_some_iff_mem hcnd₂,
        lookup_canonFields, lookup_canonFields, key k]
    · exact pairwise_keyLt_of_sorted hsnd₁ (List.sorted_insertionSort keyLe _)
    · exact pairwise_keyLt_of_sorted hsnd₂ (List.sorted_insertionSort keyLe _)
termination_by a b _ _ _ => sizeOf a
decreasing_by exact sizeOf_lookup_lt h₁

theorem deepEq_canon : ∀ {v : JSVal}, wf v = true → DeepEq v (canon v)
  | .undef, h => by simp [wf] at h
  | .str s, _ => by
    have hc : canon (JSVal.str s) = .str s := by simp [canon]
    rw [hc]; exact .str s
  | .num n, _ => by
    have hc : canon (JSVal.num n) = .num n := by simp [canon]
    rw [hc]; exact .num n
  | .bool b, _ => by
    have hc : canon (JSVal.bool b) = .bool b := by simp [canon]
    rw [hc]; exact .bool b
  | .obj fs, h => by
    have hc : canon (JSVal.obj fs) = .obj (List.insertionSort keyLe (canonFields fs)) := by
      simp [canon]
    rw [hc]
    have hnd := wf_obj_nodup h
    have hcnd : ((canonFields fs).map Prod.fst).Nodup := by
      rw [canonFields_map_fst]; exact hnd
    have hperm : (List.insertionSort keyLe (canonFields fs)).Perm (canonFields fs) :=
      List.perm_insertionSort keyLe _
    have hsnd : ((List.insertionSort keyLe (canonFields fs)).map Prod.fst).Nodup :=
      ((hperm.map Prod.fst).nodup_iff).mpr hcnd
    have hlk : ∀ k, (List.insertionSort keyLe (canonFields fs)).lookup k
        = (fs.lookup k).map canon := by
      intro k
      rw [lookup_perm hperm hsnd, lookup_canonFields]
    refine .obj fs _ (fun k => ?_) (fun k v₁ v₂ h₁ h₂ => ?_)
    · rw [hlk k]
      cases fs.lookup k <;> rfl
    · rw [hlk k, h₁] at h₂
      have hv : v₂ = canon v₁ := (Option.some.inj h₂).symm
      subst hv
      exact deepEq_canon (wf_of_lookup h h₁)
termination_by v _ => sizeOf v
decreasing_by exact sizeOf_lookup_lt h₁

theorem deepEq_of_canon_eq {a b : JSVal} (ha : wf a = true) (hb : wf b = true)
    (h : canon a = canon b) : DeepEq a b := by
  refine deepEq_trans (deepEq_canon ha) ?_
  rw [h]
  exact deepEq_symm (deepEq_canon hb)

theorem natCharsFuel_congr : ∀ (f₁ f₂ n : Nat), n < f₁ → n < f₂ →
    natCharsFuel f₁ n = natCharsFuel f₂ n
  | 0, _, _, h₁, _ => absurd h₁ (by omega)
  | _ + 1, 0, _, _, h₂ => absurd h₂ (by omega)
  | f₁ + 1, f₂ + 1, n, h₁, h₂ => by
    by_cases h : n < 10
    · simp [natCharsFuel, h]
    · have hd : n / 10 < n := Nat.div_lt_self (by omega) (by omega)
      simp only [natCharsFuel, h, if_false]
      rw [natCharsFuel_congr f₁ f₂ (n / 10) (by omega) (by omega)]

theorem natChars_eq (n : Nat) :
    natChars n = if n < 10 then [digitChar n]
      else natChars (n / 10) ++ [digitChar (n % 10)] := by
  by_cases h : n < 10
  · simp [natChars, natCharsFuel, h]
  · have hd : n / 10 < n := Nat.div_lt_self (by omega) (by omega)
    simp only [natChars, natCharsFuel, h, if_false]
    rw [natCharsFuel_congr n (n / 10 + 1) (n / 10) (by omega) (by omega)]
    rfl

theorem chVal_digitChar {d : Nat} (h : d < 10) : chVal (digitChar d) = d := by
  interval_cases d <;> rfl

theorem digitChar_isDigit {d : Nat} (h : d < 10) : (digitChar d).isDigit = true := by
  interval_cases d <;> rfl

theorem digitsVal_natChars (n : Nat) : digitsVal (natChars n) = n := by
  rw [natChars_eq]
  split
  · simp [digitsVal, chVal_digitChar ‹n < 10›]
  · have ih := digitsVal_natChars (n / 10)
    have hmod : n % 10 < 10 := Nat.mod_lt _ (by omega)
    simp only [digitsVal, List.foldl_append, List.foldl_cons, List.foldl_nil] at ih ⊢
    rw [ih, chVal_digitChar hmod]
    omega
termination_by n
decreasing_by exact Nat.div_lt_self (by omega) (by omega)

theorem natChars_ne_nil (n : Nat) : natChars n ≠ [] := by
  rw [natChars_eq]; split <;> simp

theorem natChars_isDigit (n : Nat) : ∀ c ∈ natChars n, c.isDigit = true := by
  rw [natChars_eq]
  split
  · intro c hc
    rw [List.mem_singleton] at hc
    subst hc
    exact digitChar_isDigit ‹n < 10›
  · intro c hc
    rcases List.mem_append.mp hc with hm | hm
    · exact natChars_isDigit (n / 10) c hm
    · rw [List.mem_singleton] at hm
      subst hm
      exact digitChar_isDigit (Nat.mod_lt _ (by omega))
termination_by n
decreasing_by exact Nat.div_lt_self (by omega) (by omega)

theorem natChars_head (n : Nat) : ∃ c t, natChars n = c :: t ∧ c.isDigit = true := by
  cases h : natChars n with
  | nil => exact absurd h (natChars_ne_nil n)
  | cons c t =>
    exact ⟨c, t, rfl, natChars_isDigit n c (h ▸ List.mem_cons_self c t)⟩

theorem takeWhile_append_all {p : Char → Bool} :
    ∀ (l r : List Char), (∀ c ∈ l, p c = true) → (∀ c, r.head? = some c → p c = false) →
      (l ++ r).takeWhile p = l ∧ (l ++ r).dropWhile p = r
  | [], r, _, hr => by
    cases r with
    | nil => simp
    | cons c r =>
      have hc := hr c rfl
      simp [List.takeWhile_cons, List.dropWhile_cons, hc]
  | c :: l, r, hl, hr => by
    have hc : p c = true := hl c (List.mem_cons_self c l)
    have ih := takeWhile_append_all l r (fun d hd => hl d (List.mem_cons_of_mem c hd)) hr
    simp [List.takeWhile_cons, List.dropWhile_cons, hc, ih.1, ih.2]

theorem natChars_framed {m n : Nat} {r₁ r₂ : List Char}
    (h₁ : nonDigitHead r₁) (h₂ : nonDigitHead r₂)
    (heq : natChars m ++ r₁ = natChars n ++ r₂) : m = n ∧ r₁ = r₂ := by
  have t₁ := takeWhile_append_all (natChars m) r₁ (natChars_isDigit m) h₁
  have t₂ := takeWhile_append_all (natChars n) r₂ (natChars_isDigit n) h₂
  have hm : natChars m = natChars n := by rw [← t₁.1, ← t₂.1, heq]
  have hr : r₁ = r₂ := by rw [← t₁.2, ← t₂.2, heq]
  refine ⟨?_, hr⟩
  rw [← digitsVal_natChars m, ← digitsVal_natChars n, hm]

theorem escChars_framed :
    ∀ (s₁ s₂ r₁ r₂ : List Char),
      escChars s₁ ++ '"' :: r₁ = escChars s₂ ++ '"' :: r₂ → s₁ = s₂ ∧ r₁ = r₂
  | [], [], r₁, r₂, h => by simpa [escChars] using h
  | [], d :: ds, r₁, r₂, h => by
    by_cases hd : d = '"' ∨ d = '\\'
    · rw [escChars, escChars, if_pos hd, List.nil_append, List.cons_append] at h
      exact absurd (List.cons.inj h).1 (by decide)
    · rw [escChars, escChars, if_neg hd, List.nil_append, List.cons_append] at h
      exact absurd (Or.inl (List.cons.inj h).1.symm) hd
  | c :: cs, [], r₁, r₂, h => by
    by_cases hc : c = '"' ∨ c = '\\'
    · rw [escChars, escChars, if_pos hc, List.nil_append, List.cons_append] at h
      exact absurd (List.cons.inj h).1 (by decide)
    · rw [escChars, escChars, if_neg hc, List.nil_append, List.cons_append] at h
      exact absurd (Or.inl (List.cons.inj h).1) hc
  | c :: cs, d :: ds, r₁, r₂, h => by
    by_cases hc : c = '"' ∨ c = '\\' <;> by_cases hd : d = '"' ∨ d = '\\'
    · rw [escChars, escChars, if_pos hc, if_pos hd, List.cons_append, List.cons_append,
        List.cons_append, List.cons_append] at h
      obtain ⟨-, h2⟩ := List.cons.inj h
      obtain ⟨h3, h4⟩ := List.cons.inj h2
      obtain ⟨hs, hr⟩ := escChars_framed cs ds r₁ r₂ h4
      exact ⟨by rw [h3, hs], hr⟩
    · rw [escChars, escChars, if_pos hc, if_neg hd, List.cons_append, List.cons_append] at h
      exact absurd (Or.inr (List.cons.inj h).1.symm) hd
    · rw [escChars, escChars, if_neg hc, if_pos hd, List.cons_append, List.cons_append] at h
      exact absurd (Or.inr (List.cons.inj h).1) hc
    · rw [escChars, escChars, if_neg hc, if_neg hd, List.cons_append, List.cons_append] at h
      obtain ⟨h1, h2⟩ := List.cons.inj h
      obtain ⟨hs, hr⟩ := escChars_framed cs ds r₁ r₂ h2
      exact ⟨by rw [h1, hs], hr⟩

theorem str_data_inj {s₁ s₂ : String} (h : s₁.data = s₂.data) : s₁ = s₂ := by
  cases s₁; cases s₂; exact congrArg String.mk (by simpa using h)

theorem renderFields_cons_eq (k : String) (v : JSVal) (fs : List (String × JSVal)) :
    renderFields ((k, v) :: fs)
      = '"' :: (escChars k.data ++ '"' :: ':' :: (render v ++ fieldTail fs)) := by
  cases fs with
  | nil => simp [renderFields, fieldTail]
  | cons f t => simp [renderFields, fieldTail]

theorem validTail_nonDigit {r : List Char} (h : validTail r) : nonDigitHead r := by
  intro c hc
  cases r with
  | nil => simp at hc
  | cons d t =>
    obtain rfl : d = c := by simpa using hc
    rcases h with h | h <;> (subst h; rfl)

theorem render_head (v : JSVal) (hw : wf v = true) :
    ∃ c t, render v = c :: t ∧ classify c = kindOf v := by
  cases v with
  | undef => simp [wf] at hw
  | str s =>
    exact ⟨'"', escChars s.data ++ ['"'], by simp [render], by simp [classify, kindOf]⟩
  | num n =>
    by_cases hn : n < 0
    · refine ⟨'-', natChars n.natAbs, by simp [render, hn], by simp [classify, kindOf]⟩
    · obtain ⟨c, t, hct, hdig⟩ := natChars_head n.toNat
      refine ⟨c, t, by simp [render, hn, hct], ?_⟩
      have hq : ¬(c = '"') := fun h => by subst h; simp at hdig
      simp [classify, kindOf, hq, hdig]
  | bool b =>
    cases b
    · exact ⟨'f', ['a', 'l', 's', 'e'], by simp [render], by simp [classify, kindOf]⟩
    · exact ⟨'t', ['r', 'u', 'e'], by simp [render], by simp [classify, kindOf]⟩
  | obj fs =>
    exact ⟨'\x7b', renderFields fs ++ ['\x7d'], by simp [render], by simp [classify, kindOf]⟩

theorem render_kind_eq {v₁ v₂ : JSVal} {r₁ r₂ : List Char}
    (hw₁ : wf v₁ = true) (hw₂ : wf v₂ = true)
    (heq : render v₁ ++ r₁ = render v₂ ++ r₂) : kindOf v₁ = kindOf v₂ := by
  obtain ⟨c₁, t₁, h₁, hc₁⟩ := render_head v₁ hw₁
  obtain ⟨c₂, t₂, h₂, hc₂⟩ := render_head v₂ hw₂
  rw [h₁, h₂, List.cons_append, List.cons_append] at heq
  have : c₁ = c₂ := (List.cons.inj heq).1
  rw [← hc₁, ← hc₂, this]

mutual

theorem render_framed : ∀ (v₁ v₂ : JSVal) (r₁ r₂ : List Char),
    wf v₁ = true → wf v₂ = true → validTail r₁ → validTail r₂ →
    render v₁ ++ r₁ = render v₂ ++ r₂ → v₁ = v₂ ∧ r₁ = r₂
  | .undef, _, _, _, hw₁, _, _, _, _ => by simp [wf] at hw₁
  | _, .undef, _, _, _, hw₂, _, _, _ => by simp [wf] at hw₂
  | .str s₁, .str s₂, r₁, r₂, _, _, _, _, heq => by
    simp only [render, List.cons_append, List.append_assoc, List.singleton_append] at heq
    obtain ⟨-, h2⟩ := List.cons.inj heq
    obtain ⟨hs, hr⟩ := escChars_framed _ _ _ _ h2
    exact ⟨by rw [str_data_inj hs], hr⟩
  | .num n₁, .num n₂, r₁, r₂, _, _, ht₁, ht₂, heq => by
    simp only [render] at heq
    by_cases h₁ : n₁ < 0 <;> by_cases h₂ : n₂ < 0
    · rw [if_pos h₁, if_pos h₂, List.cons_append, List.cons_append] at heq
      obtain ⟨ha, hr⟩ := natChars_framed (validTail_nonDigit ht₁) (validTail_nonDigit ht₂)
        (List.cons.inj heq).2
      exact ⟨by congr 1; omega, hr⟩
    · rw [if_pos h₁, if_neg h₂, List.cons_append] at heq
      obtain ⟨c, t, hct, hdig⟩ := natChars_head n₂.toNat
      rw [hct, List.cons_append] at heq
      have hc : c = '-' := ((List.cons.inj heq).1).symm
      rw [hc] at hdig
      exact absurd hdig (by decide)
    · rw [if_neg h₁, if_pos h₂, List.cons_append] at heq
      obtain ⟨c, t, hct, hdig⟩ := natChars_head n₁.toNat
      rw [hct, List.cons_append] at heq
      have hc : c = '-' := (List.cons.inj heq).1
      rw [hc] at hdig
      exact absurd hdig (by decide)
    · rw [if_neg h₁, if_neg h₂] at heq
      obtain ⟨ha, hr⟩ := natChars_framed (validTail_nonDigit ht₁) (validTail_nonDigit ht₂) heq
      exact ⟨by congr 1; omega, hr⟩
  | .bool b₁, .bool b₂, r₁, r₂, _, _, _, _, heq => by
    cases b₁ <;> cases b₂ <;>
      simp only [render, if_true, if_false, List.cons_append, List.nil_append,
        Bool.true_eq_false, Bool.false_eq_true] at heq <;>
      [skip; skip; skip; skip] <;>
      first
      | (exact ⟨rfl, by
          simpa only [List.cons.injEq, true_and] using heq⟩)
      | (exact absurd (List.cons.inj heq).1 (by decide))
  | .obj fs₁, .obj fs₂, r₁, r₂, hw₁, hw₂, _, _, heq => by
    simp only [render, List.cons_append, List.append_assoc, List.singleton_append] at heq
    obtain ⟨-, h2⟩ := List.cons.inj heq
    have hwf₁ : wfFields fs₁ = true := by
      simp only [wf, Bool.and_eq_true] at hw₁; exact hw₁.2
    have hwf₂ : wfFields fs₂ = true := by
      simp only [wf, Bool.and_eq_true] at hw₂; exact hw₂.2
    obtain ⟨hfs, hr⟩ := renderFields_framed fs₁ fs₂ r₁ r₂ hwf₁ hwf₂ h2
    exact ⟨by rw [hfs], hr⟩
  | .str s₁, .num n₂, _, _, hw₁, hw₂, _, _, heq =>
    absurd (render_kind_eq hw₁ hw₂ heq) (by simp [kindOf])
  | .str s₁, .bool b₂, _, _, hw₁, hw₂, _, _, heq =>
    absurd (render_kind_eq hw₁ hw₂ heq) (by simp [kindOf])
  | .str s₁, .obj fs₂, _, _, hw₁, hw₂, _, _, heq =>
    absurd (render_kind_eq hw₁ hw₂ heq) (by simp [kindOf])
  | .num n₁, .str s₂, _, _, hw₁, hw₂, _, _, heq =>
    absurd (render_kind_eq hw₁ hw₂ heq) (by simp [kindOf])
  | .num n₁, .bool b₂, _, _, hw₁, hw₂, _, _, heq =>
    absurd (render_kind_eq hw₁ hw₂ heq) (by simp [kindOf])
  | .num n₁, .obj fs₂, _, _, hw₁, hw₂, _, _, heq =>
    absurd (render_kind_eq hw₁ hw₂ heq) (by simp [kindOf])
  | .bool b₁, .str s₂, _, _, hw₁, hw₂, _, _, heq =>
    absurd (render_kind_eq hw₁ hw₂ heq) (by simp [kindOf])
  | .bool b₁, .num n₂, _, _, hw₁, hw₂, _, _, heq =>
    absurd (render_kind_eq hw₁ hw₂ heq) (by simp [kindOf])
  | .bool b₁, .obj fs₂, _, _, hw₁, hw₂, _, _, heq =>
    absurd (render_kind_eq hw₁ hw₂ heq) (by simp [kindOf])
  | .obj fs₁, .str s₂, _, _, hw₁, hw₂, _, _, heq =>
    absurd (render_kind_eq hw₁ hw₂ heq) (by simp [kindOf])
  | .obj fs₁, .num n₂, _, _, hw₁, hw₂, _, _, heq =>
    absurd (render_kind_eq hw₁ hw₂ heq) (by simp [kindOf])
  | .obj fs₁, .bool b₂, _, _, hw₁, hw₂, _, _, heq =>
    absurd (render_kind_eq hw₁ hw₂ heq) (by simp [kindOf])
termination_by v₁ _ _ _ _ _ _ _ _ => sizeOf v₁

theorem renderFields_framed : ∀ (fs₁ fs₂ : List (String × JSVal)) (r₁ r₂ : List Char),
    wfFields fs₁ = true → wfFields fs₂ = true →
    renderFields fs₁ ++ '\x7d' :: r₁ = renderFields fs₂ ++ '\x7d' :: r₂ →
    fs₁ = fs₂ ∧ r₁ = r₂
  | [], [], r₁, r₂, _, _, heq => by
    simp only [renderFields, List.nil_append] at heq
    exact ⟨rfl, (List.cons.inj heq).2⟩
  | [], (k₂, v₂) :: t₂, r₁, r₂, _, _, heq => by
    rw [renderFields_cons_eq] at heq
    simp only [renderFields, List.nil_append, List.cons_append] at heq
    exact absurd (List.cons.inj heq).1 (by decide)
  | (k₁, v₁) :: t₁, [], r₁, r₂, _, _, heq => by
    rw [renderFields_cons_eq] at heq
    simp only [renderFields, List.nil_append, List.cons_append] at heq
    exact absurd (List.cons.inj heq).1 (by decide)
  | (k₁, v₁) :: t₁, (k₂, v₂) :: t₂, r₁, r₂, hw₁, hw₂, heq => by
    rw [renderFields_cons_eq, renderFields_cons_eq] at heq
    simp only [List.cons_append, List.append_assoc] at heq
    obtain ⟨-, h2⟩ := List.cons.inj heq
    obtain ⟨hk, h3⟩ := escChars_framed _ _ _ _ h2
    obtain ⟨-, h4⟩ := List.cons.inj h3
    have hwv₁ : wf v₁ = true ∧ wfFields t₁ = true := by
      simpa only [wfFields, Bool.and_eq_true] using hw₁
    have hwv₂ : wf v₂ = true ∧ wfFields t₂ = true := by
      simpa only [wfFields, Bool.and_eq_true] using hw₂
    have hT₁ : validTail (fieldTail t₁ ++ '\x7d' :: r₁) := by
      cases t₁ <;> simp [fieldTail, validTail]
    have hT₂ : validTail (fieldTail t₂ ++ '\x7d' :: r₂) := by
      cases t₂ <;> simp [fieldTail, validTail]
    obtain ⟨hv, hT⟩ := render_framed v₁ v₂ _ _ hwv₁.1 hwv₂.1 hT₁ hT₂ h4
    cases t₁ with
    | nil =>
      cases t₂ with
      | nil =>
        simp only [fieldTail, List.nil_append] at hT
        exact ⟨by rw [str_data_inj hk, hv], (List.cons.inj hT).2⟩
      | cons f₂ u₂ =>
        simp only [fieldTail, List.nil_append, List.cons_append] at hT
        exact absurd (List.cons.inj hT).1 (by decide)
    | cons f₁ u₁ =>
      cases t₂ with
      | nil =>
        simp only [fieldTail, List.nil_append, List.cons_append] at hT
        exact absurd (List.cons.inj hT).1 (by decide)
      | cons f₂ u₂ =>
        simp only [fieldTail, List.cons_append] at hT
        obtain ⟨-, h5⟩ := List.cons.inj hT
        obtain ⟨hts, hr⟩ := renderFields_framed (f₁ :: u₁) (f₂ :: u₂) r₁ r₂ hwv₁.2 hwv₂.2 h5
        exact ⟨by rw [str_data_inj hk, hv, hts], hr⟩
termination_by fs₁ _ _ _ _ _ _ => sizeOf fs₁

end

theorem render_inj {v₁ v₂ : JSVal} (h₁ : wf v₁ = true) (h₂ : wf v₂ = true)
    (h : render v₁ = render v₂) : v₁ = v₂ :=
  (render_framed v₁ v₂ [] [] h₁ h₂ trivial trivial (by simpa using h)).1

theorem stableStringify_eq_iff_deepEq {a b : JSVal} (ha : wf a = true) (hb : wf b = true) :
    stableStringify a = stableStringify b ↔ DeepEq a b := by
  constructor
  · intro h
    have hr : render (canon a) = render (canon b) := by
      have hd := congrArg String.data h
      simpa [stableStringify] using hd
    exact deepEq_of_canon_eq ha hb (render_inj (wf_canon ha) (wf_canon hb) hr)
  · intro h
    simp [stableStringify, canon_eq_of_deepEq h ha hb]

/-! ### Version-map lemmas -/
theorem lookup_vUpdate_self (k : String) (f : BronzeImageVersion → BronzeImageVersion)
    (m : VersionMap) : (vUpdate k f m).lookup k = (m.lookup k).map f := by
  induction m with
  | nil => simp [vUpdate]
  | cons kv m ih =>
    obtain ⟨k₁, v₁⟩ := kv
    by_cases h : k₁ = k
    · subst h
      simp only [vUpdate, List.map_cons, beq_self_eq_true, if_true, List.lookup_cons]
      simp only [vUpdate] at ih
      simp [ih]
    · have h₁ : (k₁ == k) = false := beq_eq_false_iff_ne.mpr h
      have h₂ : (k == k₁) = false := beq_eq_false_iff_ne.mpr (fun hh => h hh.symm)
      simp only [vUpdate, List.map_cons, h₁, Bool.false_eq_true, if_false, List.lookup_cons, h₂]
      simp only [vUpdate] at ih
      exact ih

theorem lookup_vUpdate_ne (k k₂ : String) (f : BronzeImageVersion → BronzeImageVersion)
    (m : VersionMap) (h : k₂ ≠ k) : (vUpdate k f m).lookup k₂ = m.lookup k₂ := by
  induction m with
  | nil => simp [vUpdate]
  | cons kv m ih =>
    obtain ⟨k₁, v₁⟩ := kv
    simp only [vUpdate, List.map_cons] at ih ⊢
    by_cases h₁ : k₁ = k
    · subst h₁
      have h₂ : (k₂ == k₁) = false := beq_eq_false_iff_ne.mpr h
      simp only [beq_self_eq_true, if_true, List.lookup_cons, h₂, Bool.false_eq_true, if_false]
      exact ih
    · have hb : (k₁ == k) = false := beq_eq_false_iff_ne.mpr h₁
      by_cases h₂ : k₂ = k₁
      · subst h₂
        simp [hb, List.lookup_cons]
      · have hb₂ : (k₂ == k₁) = false := beq_eq_false_iff_ne.mpr h₂
        simp only [hb, Bool.false_eq_true, if_false, List.lookup_cons, hb₂]
        exact ih

theorem lookup_clearOps (m : VersionMap) (k : String) :
    (clearOps m).lookup k = (m.lookup k).map (fun v => { v with op := none }) := by
  induction m with
  | nil => simp [clearOps]
  | cons kv m ih =>
    obtain ⟨k₁, v₁⟩ := kv
    by_cases h : k = k₁
    · subst h
      simp [clearOps, List.lookup_cons]
    · have hb : (k == k₁) = false := beq_eq_false_iff_ne.mpr h
      simp only [clearOps, List.map_cons, List.lookup_cons, hb, Bool.false_eq_true, if_false]
      simp only [clearOps] at ih
      exact ih

/-! ### addVersion: outcome shape -/

/-- `addVersion` on an unknown version id: the version record is created
and a single GENERATE operation targeting the declared path is queued. -/
theorem addVersion_ops_new (digest : String → String) (versions : VersionMap)
    (fs : List String) (tn fn p : String) (tObj : JSVal)
    (hlk : versions.lookup (tn ++ "-" ++ fn) = none) :
    (addVersion digest versions fs tn fn p tObj).2
      = [{ type := .GENERATE, version := some (tn ++ "-" ++ fn),
           targetPath := some p, transform := some tObj }] := by
  have hlk₂ : (versions ++ [(tn ++ "-" ++ fn,
      { id := tn ++ "-" ++ fn, transform := tn, format := fn, path := p,
        hash := hashTransformObject digest tObj : BronzeImageVersion })]).lookup
      (tn ++ "-" ++ fn) = some
      { id := tn ++ "-" ++ fn, transform := tn, format := fn, path := p,
        hash := hashTransformObject digest tObj } := by
    rw [List.lookup_append, hlk]
    simp
  simp only [addVersion, queueVersionOperation, hlk, hlk₂]

/-- `addVersion` on an existing version whose output file exists but whose
fingerprint changed: exactly one DELETE of the old stored path followed by
one GENERATE of the new declared path. -/
theorem addVersion_ops_regen (digest : String → String) (versions : VersionMap)
    (fs : List String) (tn fn p : String) (tObj : JSVal) (v : BronzeImageVersion)
    (hlk : versions.lookup (tn ++ "-" ++ fn) = some v)
    (hex : pathExists fs v.path = true)
    (hh : hashTransformObject digest tObj ≠ v.hash) :
    (addVersion digest versions fs tn fn p tObj).2
      = [{ type := .DELETE, version := some (tn ++ "-" ++ fn),
           targetPath := some v.path },
         { type := .GENERATE, version := some (tn ++ "-" ++ fn),
           targetPath := some p, transform := some tObj }] := by
  have hlk₂ : (vUpdate (tn ++ "-" ++ fn) (fun w => { w with path := p })
      versions).lookup (tn ++ "-" ++ fn) = some { v with path := p } := by
    rw [lookup_vUpdate_self, hlk]; rfl
  simp only [addVersion, queueVersionOperation, hlk, hex, if_true, hlk₂,
    queueDeleteOperation]
  rw [if_pos hh]
  rfl

/-- `addVersion` on an existing version whose fingerprint changed also
leaves the stored `hash` field untouched (the source never writes
`transformHash` back in this branch): afterwards the version still carries
the old hash, with only the path updated and the op reference set. -/
theorem addVersion_regen_hash_unchanged (digest : String → String)
    (versions : VersionMap) (fs : List String) (tn fn p : String) (tObj : JSVal)
    (v : BronzeImageVersion)
    (hlk : versions.lookup (tn ++ "-" ++ fn) = some v)
    (hex : pathExists fs v.path = true)
    (hh : hashTransformObject digest tObj ≠ v.hash) :
    ((addVersion digest versions fs tn fn p tObj).1.lookup (tn ++ "-" ++ fn)).map
        (fun w => w.hash) = some v.hash := by
  have hlk₂ : (vUpdate (tn ++ "-" ++ fn) (fun w => { w with path := p })
      versions).lookup (tn ++ "-" ++ fn) = some { v with path := p } := by
    rw [lookup_vUpdate_self, hlk]; rfl
  simp only [addVersion, queueVersionOperation, hlk, hex, if_true, hlk₂]
  rw [if_pos hh]
  simp only []
  rw [lookup_vUpdate_self, hlk₂]
  rfl

/-- `addVersion` on an existing version with unchanged fingerprint, an
existing output file and a changed declared path: the version map is left
untouched (the commented-out path update) and exactly one RENAME is
queued. -/
theorem addVersion_ops_rename (digest : String → String) (versions : VersionMap)
    (fs : List String) (tn fn p : String) (tObj : JSVal) (v : BronzeImageVersion)
    (hlk : versions.lookup (tn ++ "-" ++ fn) = some v)
    (hex : pathExists fs v.path = true)
    (hh : hashTransformObject digest tObj = v.hash)
    (hp : p ≠ v.path) :
    addVersion digest versions fs tn fn p tObj
      = (versions, [{ type := .RENAME, version := some (tn ++ "-" ++ fn),
                      targetPath := some p }]) := by
  simp only [addVersion, queueVersionOperation, hlk, hex, if_true,
    queueRenameOperation]
  rw [if_neg (by simp [hh]), if_pos hp]

/-- `addVersion` on an existing, satisfied version: no operation. -/
theorem addVersion_ops_noop (digest : String → String) (versions : VersionMap)
    (fs : List String) (tn fn : String) (tObj : JSVal) (v : BronzeImageVersion)
    (hlk : versions.lookup (tn ++ "-" ++ fn) = some v)
    (hex : pathExists fs v.path = true)
    (hh : hashTransformObject digest tObj = v.hash) :
    addVersion digest versions fs tn fn v.path tObj = (versions, []) := by
  simp only [addVersion, queueVersionOperation, hlk, hex, if_true]
  rw [if_neg (by simp [hh]), if_neg (by simp)]

/-- `addVersion` on an existing version whose output file is missing:
update the path and queue exactly one GENERATE. -/
theorem addVersion_ops_missing (digest : String → String) (versions : VersionMap)
    (fs : List String) (tn fn p : String) (tObj : JSVal) (v : BronzeImageVersion)
    (hlk : versions.lookup (tn ++ "-" ++ fn) = some v)
    (hex : pathExists fs v.path = false) :
    (addVersion digest versions fs tn fn p tObj).2
      = [{ type := .GENERATE, version := some (tn ++ "-" ++ fn),
           targetPath := some p, transform := some tObj }] := by
  have hlk₂ : (vUpdate (tn ++ "-" ++ fn) (fun w => { w with path := p })
      versions).lookup (tn ++ "-" ++ fn) = some { v with path := p } := by
    rw [lookup_vUpdate_self, hlk]; rfl
  simp only [addVersion, queueVersionOperation, hlk, hlk₂]
  rw [if_neg (by simp [hex])]

/-- Every call of `addVersion` queues exactly one of the four outcomes, and
every queued operation carries this call's version id. -/
theorem addVersion_ops_shape (digest : String → String) (versions : VersionMap)
    (fs : List String) (tn fn p : String) (tObj : JSVal) :
    ((addVersion digest versions fs tn fn p tObj).2.map (fun op => op.type) = []
      ∨ (addVersion digest versions fs tn fn p tObj).2.map (fun op => op.type)
          = [.GENERATE]
      ∨ (addVersion digest versions fs tn fn p tObj).2.map (fun op => op.type)
          = [.DELETE, .GENERATE]
      ∨ (addVersion digest versions fs tn fn p tObj).2.map (fun op => op.type)
          = [.RENAME])
    ∧ ∀ op ∈ (addVersion digest versions fs tn fn p tObj).2,
        op.version = some (tn ++ "-" ++ fn) := by
  cases hlk : versions.lookup (tn ++ "-" ++ fn) with
  | none =>
    rw [addVersion_ops_new digest versions fs tn fn p tObj hlk]
    refine ⟨Or.inr (Or.inl rfl), ?_⟩
    intro op hop
    simp only [List.mem_singleton] at hop
    subst hop
    rfl
  | some v =>
    cases hex : pathExists fs v.path with
    | true =>
      by_cases hh : hashTransformObject digest tObj = v.hash
      · by_cases hp : p = v.path
        · subst hp
          rw [addVersion_ops_noop digest versions fs tn fn tObj v hlk hex hh]
          exact ⟨Or.inl rfl, by intro op hop; simp at hop⟩
        · rw [addVersion_ops_rename digest versions fs tn fn p tObj v hlk hex hh hp]
          refine ⟨Or.inr (Or.inr (Or.inr rfl)), ?_⟩
          intro op hop
          simp only [List.mem_singleton] at hop
          subst hop
          rfl
      · rw [addVersion_ops_regen digest versions fs tn fn p tObj v hlk hex hh]
        refine ⟨Or.inr (Or.inr (Or.inl rfl)), ?_⟩
        intro op hop
        simp only [List.mem_cons, List.mem_singleton] at hop
        rcases hop with rfl | rfl | h
        · rfl
        · rfl
        · simp at h
    | false =>
      rw [addVersion_ops_missing digest versions fs tn fn p tObj v hlk hex]
      refine ⟨Or.inr (Or.inl rfl), ?_⟩
      intro op hop
      simp only [List.mem_singleton] at hop
      subst hop
      rfl

/-- Every operation queued by a planning pass carries the version id of one
of the requests. -/
theorem runAddVersions_ops_version (digest : String → String) (fs : List String) :
    ∀ (cfg : List VersionRequest) (versions : VersionMap),
      ∀ op ∈ (runAddVersions digest versions fs cfg).2,
        ∃ c ∈ cfg, op.version = some (c.transformName ++ "-" ++ c.formatName)
  | [], _, op, hop => by simp [runAddVersions] at hop
  | c :: rest, versions, op, hop => by
    simp only [runAddVersions, List.mem_append] at hop
    rcases hop with hop | hop
    · exact ⟨c, by simp,
        (addVersion_ops_shape digest versions fs c.transformName c.formatName
          c.path c.transformObj).2 op hop⟩
    · obtain ⟨c₂, hc₂, hv⟩ := runAddVersions_ops_version digest fs rest _ op hop
      exact ⟨c₂, by simp [hc₂], hv⟩

/-! ### Claim theorems -/

/-- C6: for every pair of well-formed transform configuration objects that
are deeply equal regardless of key insertion order, `hashTransformObject`
returns the same digest string (for any digest function); and, modelling
the external md5 digest as collision-free (injective), any semantic change
to the configuration — format name, encode options or resize options —
changes the digest: equal digests imply deep equality. -/
theorem c6_fingerprint_stable_and_sensitive (a b : JSVal)
    (ha : wf a = true) (hb : wf b = true) :
    (DeepEq a b → ∀ digest : String → String,
      hashTransformObject digest a = hashTransformObject digest b)
    ∧ (∀ digest : String → String, Function.Injective digest →
      hashTransformObject digest a = hashTransformObject digest b → DeepEq a b) := by
  constructor
  · intro h digest
    unfold hashTransformObject
    rw [(stableStringify_eq_iff_deepEq ha hb).mpr h]
  · intro digest hinj h
    exact (stableStringify_eq_iff_deepEq ha hb).mp (hinj h)

theorem c6_fingerprint_stable_and_sensitive_witness :
    wf c6ConfigA = true ∧ wf c6ConfigB = true ∧ DeepEq c6ConfigA c6ConfigB ∧
      hashTransformObject (fun s => s) c6ConfigA
        = hashTransformObject (fun s => s) c6ConfigB :=
  have hde : DeepEq c6ConfigA c6ConfigB :=
    deepEq_of_canon_eq (by decide) (by decide) rfl
  ⟨by decide, by decide, hde,
    (c6_fingerprint_stable_and_sensitive c6ConfigA c6ConfigB (by decide) (by decide)).1
      hde (fun s => s)⟩

/-- C5: in a single planning run whose requests have pairwise-distinct
version ids (as `prepareProfile`'s transform-and-format loops produce),
every version receives the operations of exactly one of the four outcomes:
nothing, GENERATE alone, DELETE followed by GENERATE, or RENAME alone — in
particular never DELETE together with RENAME and never two GENERATEs. -/
theorem c5_one_outcome_per_version (digest : String → String) (fs : List String)
    (cfg : List VersionRequest) (versions : VersionMap)
    (hdist : (cfg.map (fun c => c.transformName ++ "-" ++ c.formatName)).Nodup)
    (vid : String) :
    ((runAddVersions digest versions fs cfg).2.filter
        (fun op => op.version == some vid)).map (fun op => op.type) = []
    ∨ ((runAddVersions digest versions fs cfg).2.filter
        (fun op => op.version == some vid)).map (fun op => op.type) = [.GENERATE]
    ∨ ((runAddVersions digest versions fs cfg).2.filter
        (fun op => op.version == some vid)).map (fun op => op.type)
        = [.DELETE, .GENERATE]
    ∨ ((runAddVersions digest versions fs cfg).2.filter
        (fun op => op.version == some vid)).map (fun op => op.type) = [.RENAME] := by
  induction cfg generalizing versions with
  | nil => exact Or.inl rfl
  | cons c rest ih =>
    simp only [List.map_cons, List.nodup_cons] at hdist
    have hsh := addVersion_ops_shape digest versions fs c.transformName c.formatName
      c.path c.transformObj
    simp only [runAddVersions, List.filter_append, List.map_append]
    by_cases hv : (c.transformName ++ "-" ++ c.formatName) = vid
    · have hfil₁ : (addVersion digest versions fs c.transformName c.formatName
          c.path c.transformObj).2.filter (fun op => op.version == some vid)
          = (addVersion digest versions fs c.transformName c.formatName
              c.path c.transformObj).2 := by
        rw [List.filter_eq_self]
        intro op hop
        rw [hsh.2 op hop, hv]
        exact beq_self_eq_true _
      have hfil₂ : ((runAddVersions digest (addVersion digest versions fs
          c.transformName c.formatName c.path c.transformObj).1 fs rest).2.filter
          (fun op => op.version == some vid)) = [] := by
        rw [List.filter_eq_nil_iff]
        intro op hop
        obtain ⟨c₂, hc₂, hvc₂⟩ := runAddVersions_ops_version digest fs rest _ op hop
        rw [hvc₂]
        have hne : (c₂.transformName ++ "-" ++ c₂.formatName) ≠ vid := by
          rw [← hv]
          intro heq
          exact hdist.1 (heq ▸ List.mem_map_of_mem _ hc₂)
        simp [hne]
      rw [hfil₁, hfil₂]
      simp only [List.map_nil, List.append_nil]
      exact hsh.1
    · have hfil₁ : (addVersion digest versions fs c.transformName c.formatName
          c.path c.transformObj).2.filter (fun op => op.version == some vid) = [] := by
        rw [List.filter_eq_nil_iff]
        intro op hop
        rw [hsh.2 op hop]
        simp [hv]
      rw [hfil₁]
      simp only [List.map_nil, List.nil_append]
      exact ih _ hdist.2

theorem c5_one_outcome_per_version_witness :
    (([⟨"thumb", "jpeg", "out/a-thumb.jpg", c6ConfigA⟩,
       ⟨"large", "jpeg", "out/a-large.jpg", c6ConfigB⟩] : List VersionRequest).map
        (fun c => c.transformName ++ "-" ++ c.formatName)).Nodup
    ∧ (((runAddVersions (fun s => s) [] []
          [⟨"thumb", "jpeg", "out/a-thumb.jpg", c6ConfigA⟩,
           ⟨"large", "jpeg", "out/a-large.jpg", c6ConfigB⟩]).2.filter
          (fun op => op.version == some "thumb-jpeg")).map (fun op => op.type) = []
      ∨ (((runAddVersions (fun s => s) [] []
          [⟨"thumb", "jpeg", "out/a-thumb.jpg", c6ConfigA⟩,
           ⟨"large", "jpeg", "out/a-large.jpg", c6ConfigB⟩]).2.filter
          (fun op => op.version == some "thumb-jpeg")).map (fun op => op.type))
          = [.GENERATE]
      ∨ (((runAddVersions (fun s => s) [] []
          [⟨"thumb", "jpeg", "out/a-thumb.jpg", c6ConfigA⟩,
           ⟨"large", "jpeg", "out/a-large.jpg", c6ConfigB⟩]).2.filter
          (fun op => op.version == some "thumb-jpeg")).map (fun op => op.type))
          = [.DELETE, .GENERATE]
      ∨ (((runAddVersions (fun s => s) [] []
          [⟨"thumb", "jpeg", "out/a-thumb.jpg", c6ConfigA⟩,
           ⟨"large", "jpeg", "out/a-large.jpg", c6ConfigB⟩]).2.filter
          (fun op => op.version == some "thumb-jpeg")).map (fun op => op.type))
          = [.RENAME]) :=
  ⟨by decide,
    c5_one_outcome_per_version (fun s => s) []
      [⟨"thumb", "jpeg", "out/a-thumb.jpg", c6ConfigA⟩,
       ⟨"large", "jpeg", "out/a-large.jpg", c6ConfigB⟩] [] (by decide) "thumb-jpeg"⟩

/-- Distinct (transform, format) combinations with allowed formats give
distinct version ids, so the distinctness hypothesis of the per-run outcome
theorem holds for every run the planner's loops can produce: the format part
of `transformName ++ "-" ++ formatName` is always `jpeg` or `webp`, so the
decomposition is unambiguous. -/
theorem versionId_inj_of_allowed (tn₁ fn₁ tn₂ fn₂ : String)
    (h₁ : ALLOWED_FORMATS.contains fn₁ = true)
    (h₂ : ALLOWED_FORMATS.contains fn₂ = true)
    (h : tn₁ ++ "-" ++ fn₁ = tn₂ ++ "-" ++ fn₂) : tn₁ = tn₂ ∧ fn₁ = fn₂ := by
  have hf₁ : fn₁ = "jpeg" ∨ fn₁ = "webp" := by
    simpa [ALLOWED_FORMATS] using h₁
  have hf₂ : fn₂ = "jpeg" ∨ fn₂ = "webp" := by
    simpa [ALLOWED_FORMATS] using h₂
  have hd : (tn₁.data ++ "-".data) ++ fn₁.data = (tn₂.data ++ "-".data) ++ fn₂.data := by
    have := congrArg String.data h
    simpa [String.data_append] using this
  have hlen : fn₁.data.length = fn₂.data.length := by
    rcases hf₁ with rfl | rfl <;> rcases hf₂ with rfl | rfl <;> rfl
  have hpre : tn₁.data ++ "-".data = tn₂.data ++ "-".data :=
    List.append_inj_left' hd hlen
  have hsuf : fn₁.data = fn₂.data := List.append_inj_right' hd hlen
  have htn : tn₁.data = tn₂.data := List.append_inj_left' hpre rfl
  constructor
  · cases tn₁; cases tn₂
    exact congrArg String.mk (by simpa using htn)
  · cases fn₁; cases fn₂
    exact congrArg String.mk (by simpa using hsuf)

/-- C4: for an existing version whose fingerprint is unchanged, whose
output file exists and whose declared destination differs from the stored
path, reconciliation queues exactly one RENAME (no GENERATE, no DELETE) and
leaves the version map untouched; the stored path is updated to the new
path only by the RENAME operation's success, and a failing rename leaves
it unchanged. -/
theorem c4_pure_rename (digest : String → String) (versions : VersionMap)
    (fs : List String) (tn fn p : String) (tObj : JSVal) (v : BronzeImageVersion)
    (hlk : versions.lookup (tn ++ "-" ++ fn) = some v)
    (hex : pathExists fs v.path = true)
    (hh : hashTransformObject digest tObj = v.hash)
    (hp : p ≠ v.path) :
    addVersion digest versions fs tn fn p tObj
      = (versions, [{ type := .RENAME, version := some (tn ++ "-" ++ fn),
                      targetPath := some p }])
    ∧ renameImageFile versions fs (tn ++ "-" ++ fn) p
        = .ok (vUpdate (tn ++ "-" ++ fn) (fun w => { w with path := p }) versions,
               p :: fs.erase v.path)
    ∧ (vUpdate (tn ++ "-" ++ fn) (fun w => { w with path := p }) versions).lookup
          (tn ++ "-" ++ fn) = some { v with path := p }
    ∧ ∀ fs₂ : List String, fs₂.contains v.path = false →
        renameImageFile versions fs₂ (tn ++ "-" ++ fn) p = .error () := by
  refine ⟨addVersion_ops_rename digest versions fs tn fn p tObj v hlk hex hh hp,
    ?_, ?_, ?_⟩
  · simp only [renameImageFile, hlk]
    rw [if_pos (show fs.contains v.path = true from hex)]
  · rw [lookup_vUpdate_self, hlk]
    rfl
  · intro fs₂ h₂
    simp only [renameImageFile, hlk]
    rw [if_neg (by rw [h₂]; simp)]

theorem c4_pure_rename_witness :
    ([("thumb-jpeg",
        { id := "thumb-jpeg", format := "jpeg", transform := "thumb",
          path := "out/a-thumb.jpg",
          hash := hashTransformObject (fun s => s) c6ConfigA
          : BronzeImageVersion })] : VersionMap).lookup ("thumb" ++ "-" ++ "jpeg")
        = some { id := "thumb-jpeg", format := "jpeg", transform := "thumb",
                 path := "out/a-thumb.jpg",
                 hash := hashTransformObject (fun s => s) c6ConfigA }
    ∧ pathExists ["out/a-thumb.jpg"]
        ({ id := "thumb-jpeg", format := "jpeg", transform := "thumb",
           path := "out/a-thumb.jpg",
           hash := hashTransformObject (fun s => s) c6ConfigA
           : BronzeImageVersion }).path = true
    ∧ (addVersion (fun s => s)
        [("thumb-jpeg",
          { id := "thumb-jpeg", format := "jpeg", transform := "thumb",
            path := "out/a-thumb.jpg",
            hash := hashTransformObject (fun s => s) c6ConfigA })]
        ["out/a-thumb.jpg"] "thumb" "jpeg" "img/a-thumb.jpg" c6ConfigA
      = ([("thumb-jpeg",
          { id := "thumb-jpeg", format := "jpeg", transform := "thumb",
            path := "out/a-thumb.jpg",
            hash := hashTransformObject (fun s => s) c6ConfigA })],
         [{ type := .RENAME, version := some ("thumb" ++ "-" ++ "jpeg"),
            targetPath := some "img/a-thumb.jpg" }])) :=
  have h := c4_pure_rename (fun s => s)
    [("thumb-jpeg",
      { id := "thumb-jpeg", format := "jpeg", transform := "thumb",
        path := "out/a-thumb.jpg",
        hash := hashTransformObject (fun s => s) c6ConfigA })]
    ["out/a-thumb.jpg"] "thumb" "jpeg" "img/a-thumb.jpg" c6ConfigA
    { id := "thumb-jpeg", format := "jpeg", transform := "thumb",
      path := "out/a-thumb.jpg",
      hash := hashTransformObject (fun s => s) c6ConfigA }
    rfl rfl rfl (by decide)
  ⟨rfl, rfl, h.1⟩

/-- C3: `measureBrightness` never reads the sampled version's file before
that version's GENERATE operation's completion future has resolved: when
the smallest version carries an in-flight operation, the file read event
occurs only after the await event and only when the future resolved
successfully; if the future resolves with a failure, no file is read and
the failure propagates. -/
theorem c3_brightness_awaits_generate (versions : VersionMap)
    (resolve : BronzeOperation → Except Unit Unit)
    (vid : String) (v : BronzeImageVersion) (genOp : BronzeOperation)
    (hsm : smallestVersionId versions = some vid)
    (hv : versions.lookup vid = some v)
    (hop : v.op = some genOp) :
    (resolve genOp = .ok () →
      measureBrightness versions resolve
        = ([.await vid, .readFile v.path], .ok ()))
    ∧ (∀ e, resolve genOp = .error e →
        measureBrightness versions resolve = ([.await vid], .error e)
        ∧ ∀ p, BrightnessEvent.readFile p ∉ (measureBrightness versions resolve).1) := by
  constructor
  · intro hok
    simp [measureBrightness, hsm, hv, hop, hok]
  · intro e herr
    have hmb : measureBrightness versions resolve = ([.await vid], .error e) := by
      simp [measureBrightness, hsm, hv, hop, herr]
    refine ⟨hmb, ?_⟩
    intro p hmem
    rw [hmb] at hmem
    simp at hmem

theorem c3_brightness_awaits_generate_witness :
    smallestVersionId
        [("thumb-jpeg",
          { id := "thumb-jpeg", format := "jpeg", transform := "thumb",
            path := "out/a-thumb.jpg", hash := "h", width := some 200,
            op := some { type := .GENERATE, version := some "thumb-jpeg",
                         targetPath := some "out/a-thumb.jpg" }
            : BronzeImageVersion })] = some "thumb-jpeg"
    ∧ measureBrightness
        [("thumb-jpeg",
          { id := "thumb-jpeg", format := "jpeg", transform := "thumb",
            path := "out/a-thumb.jpg", hash := "h", width := some 200,
            op := some { type := .GENERATE, version := some "thumb-jpeg",
                         targetPath := some "out/a-thumb.jpg" } })]
        (fun _ => .ok ())
        = ([.await "thumb-jpeg", .readFile "out/a-thumb.jpg"], .ok ()) :=
  have h := c3_brightness_awaits_generate
    [("thumb-jpeg",
      { id := "thumb-jpeg", format := "jpeg", transform := "thumb",
        path := "out/a-thumb.jpg", hash := "h", width := some 200,
        op := some { type := .GENERATE, version := some "thumb-jpeg",
                     targetPath := some "out/a-thumb.jpg" } })]
    (fun _ => .ok ()) "thumb-jpeg"
    { id := "thumb-jpeg", format := "jpeg", transform := "thumb",
      path := "out/a-thumb.jpg", hash := "h", width := some 200,
      op := some { type := .GENERATE, version := some "thumb-jpeg",
                   targetPath := some "out/a-thumb.jpg" } }
    { type := .GENERATE, version := some "thumb-jpeg",
      targetPath := some "out/a-thumb.jpg" }
    rfl rfl rfl
  ⟨rfl, h.1 rfl⟩

/-- All well-formed image entries survive `filterMap` over
`BronzeImage.fromObject`. -/
theorem images_filterMap_length (l : List (String × JSVal))
    (h : ∀ kv ∈ l, (imageFromObject kv.1 kv.2).isOk = true) :
    (l.filterMap (fun kv => (imageFromObject kv.1 kv.2).toOption.map
      (fun im => (im.id, im)))).length = l.length := by
  induction l with
  | nil => rfl
  | cons kv l ih =>
    have hk := h kv (List.mem_cons_self kv l)
    cases hres : imageFromObject kv.1 kv.2 with
    | error e =>
      rw [hres] at hk
      simp [Except.isOk, Except.toBool] at hk
    | ok im =>
      have hsome : (fun kv : String × JSVal =>
          (imageFromObject kv.1 kv.2).toOption.map (fun im => (im.id, im))) kv
          = some (im.id, im) := by
        have htoOpt : (imageFromObject kv.1 kv.2).toOption = some im := by
          rw [hres]; rfl
        simp [htoOpt]
      rw [List.filterMap_cons_some
        (f := fun kv : String × JSVal =>
          (imageFromObject kv.1 kv.2).toOption.map (fun im => (im.id, im))) hsome]
      simp only [List.length_cons]
      rw [ih (fun kv₂ h₂ => h kv₂ (List.mem_cons_of_mem kv h₂))]

/-- C7: registry deserialization throws for a snapshot missing (or falsy)
`basepath` or `images`; and a snapshot whose image entries are all
well-formed except one whose version collection is malformed loads without
an exception into a registry containing exactly the well-formed images,
the malformed entry omitted. -/
theorem c7_fromObject_rejects_and_skips (bp : String) (hbp : bp ≠ "")
    (goodL goodR : List (String × JSVal)) (bid : String) (bdata : JSVal)
    (hgood : ∀ kv ∈ goodL ++ goodR, (imageFromObject kv.1 kv.2).isOk = true)
    (hbadsrc : truthy (jsGet bdata "src") = true)
    (hbadver : truthy (jsGet bdata "versions") = true)
    (hbad : isImageVersionCollection (jsGet bdata "versions") = false) :
    (∀ data : JSVal, truthy (jsGet data "basepath") = false →
      registryFromObject data = .error "No basepath property")
    ∧ (∀ data : JSVal, truthy (jsGet data "basepath") = true →
        truthy (jsGet data "images") = false →
        registryFromObject data = .error "No image property")
    ∧ (∃ r, registryFromObject
          (.obj [("basepath", .str bp),
                 ("images", .obj (goodL ++ (bid, bdata) :: goodR))]) = .ok r
        ∧ r.images.length = goodL.length + goodR.length
        ∧ r.images = (goodL ++ goodR).filterMap
            (fun kv => (imageFromObject kv.1 kv.2).toOption.map
              (fun im => (im.id, im)))) := by
  refine ⟨?_, ?_, ?_⟩
  · intro data h
    simp [registryFromObject, h]
  · intro data h₁ h₂
    simp [registryFromObject, h₁, h₂]
  · have hb : truthy (jsGet
        (.obj [("basepath", .str bp),
               ("images", .obj (goodL ++ (bid, bdata) :: goodR))]) "basepath") = true := by
      simp [jsGet, List.lookup_cons, truthy, hbp]
    have hi : jsGet (.obj [("basepath", .str bp),
        ("images", .obj (goodL ++ (bid, bdata) :: goodR))]) "images"
        = .obj (goodL ++ (bid, bdata) :: goodR) := by
      simp [jsGet, List.lookup_cons]
    have hbadnone : imageFromObject bid bdata = .error "Malformed versions property" := by
      simp [imageFromObject, hbadsrc, hbadver, hbad]
    have hbpget : jsGet (.obj [("basepath", .str bp),
        ("images", .obj (goodL ++ (bid, bdata) :: goodR))]) "basepath" = .str bp := by
      simp [jsGet, List.lookup_cons]
    have hnone : (fun kv : String × JSVal =>
        (imageFromObject kv.1 kv.2).toOption.map (fun im => (im.id, im))) (bid, bdata)
        = none := by
      simp [hbadnone, Except.toOption]
    have hreg : registryFromObject
        (.obj [("basepath", .str bp),
               ("images", .obj (goodL ++ (bid, bdata) :: goodR))])
        = .ok { basepath := .str bp,
                images := (goodL ++ (bid, bdata) :: goodR).filterMap
                  (fun kv => (imageFromObject kv.1 kv.2).toOption.map
                    (fun im => (im.id, im))) } := by
      simp only [registryFromObject]
      rw [if_neg (by simp [hb]), if_neg (by simp [hi, truthy])]
      rw [hbpget, hi]
      rfl
    refine ⟨_, hreg, ?_, ?_⟩
    · simp only [List.filterMap_append]
      rw [List.filterMap_cons_none
        (f := fun kv : String × JSVal =>
          (imageFromObject kv.1 kv.2).toOption.map (fun im => (im.id, im))) hnone]
      rw [← List.filterMap_append, images_filterMap_length (goodL ++ goodR) hgood]
      simp
    · simp only [List.filterMap_append]
      rw [List.filterMap_cons_none
        (f := fun kv : String × JSVal =>
          (imageFromObject kv.1 kv.2).toOption.map (fun im => (im.id, im))) hnone,
        ← List.filterMap_append]

theorem c7_fromObject_rejects_and_skips_witness :
    (∃ r, registryFromObject
        (.obj [("basepath", .str "in"),
               ("images", .obj
                 ([("a", .obj [("src", .str "in/a.jpg"), ("versions", .obj [])])] ++
                  ("c", .obj [("src", .str "in/c.jpg"),
                    ("versions", .obj [("thumb-jpeg", .obj
                      [("id", .str "thumb-jpeg"), ("format", .str "jpeg"),
                       ("transform", .str "thumb"),
                       ("path", .str "out/c-thumb.jpg")])])]) ::
                  [("b", .obj [("src", .str "in/b.jpg"), ("versions", .obj [])])]))]) = .ok r
      ∧ r.images.length
          = ([("a", JSVal.obj [("src", .str "in/a.jpg"), ("versions", .obj [])])] :
              List (String × JSVal)).length
            + ([("b", JSVal.obj [("src", .str "in/b.jpg"), ("versions", .obj [])])] :
              List (String × JSVal)).length
      ∧ r.images = (([("a", JSVal.obj [("src", .str "in/a.jpg"), ("versions", .obj [])])] :
            List (String × JSVal))
          ++ [("b", JSVal.obj [("src", .str "in/b.jpg"), ("versions", .obj [])])]).filterMap
            (fun kv => (imageFromObject kv.1 kv.2).toOption.map
              (fun im => (im.id, im)))) :=
  (c7_fromObject_rejects_and_skips "in" (by decide)
    [("a", .obj [("src", .str "in/a.jpg"), ("versions", .obj [])])]
    [("b", .obj [("src", .str "in/b.jpg"), ("versions", .obj [])])]
    "c"
    (.obj [("src", .str "in/c.jpg"),
      ("versions", .obj [("thumb-jpeg", .obj
        [("id", .str "thumb-jpeg"), ("format", .str "jpeg"),
         ("transform", .str "thumb"), ("path", .str "out/c-thumb.jpg")])])])
    (by decide) (by decide) (by decide) (by decide)).2.2

/-- C10: `BronzeImage.toObject` mutates the in-memory image itself — after
the call every entry of the live `versions` map has its `op` reference
deleted, all other version fields and image fields untouched — and the
returned snapshot object shares that mutated map and copies the image
fields unchanged. -/
theorem c10_toObject_strips_ops (img : BronzeImage) :
    (∀ vid, (BronzeImage.toObject img).1.versions.lookup vid
        = (img.versions.lookup vid).map (fun v => { v with op := none }))
    ∧ (∀ kv ∈ (BronzeImage.toObject img).1.versions, kv.2.op = none)
    ∧ (BronzeImage.toObject img).1.id = img.id
    ∧ (BronzeImage.toObject img).1.src = img.src
    ∧ (BronzeImage.toObject img).1.width = img.width
    ∧ (BronzeImage.toObject img).1.height = img.height
    ∧ (BronzeImage.toObject img).1.brightness = img.brightness
    ∧ (BronzeImage.toObject img).1.dominant = img.dominant
    ∧ (BronzeImage.toObject img).2.versions = (BronzeImage.toObject img).1.versions
    ∧ (BronzeImage.toObject img).2.id = img.id
    ∧ (BronzeImage.toObject img).2.src = img.src
    ∧ (BronzeImage.toObject img).2.width = img.width
    ∧ (BronzeImage.toObject img).2.height = img.height
    ∧ (BronzeImage.toObject img).2.brightness = img.brightness
    ∧ (BronzeImage.toObject img).2.dominant = img.dominant := by
  refine ⟨?_, ?_, rfl, rfl, rfl, rfl, rfl, rfl, rfl, rfl, rfl, rfl, rfl, rfl, rfl⟩
  · intro vid
    exact lookup_clearOps img.versions vid
  · intro kv hkv
    simp only [BronzeImage.toObject, clearOps, List.mem_map] at hkv
    obtain ⟨kv₀, -, hkv₀⟩ := hkv
    rw [← hkv₀]

theorem c10_toObject_strips_ops_witness :
    (∀ vid, (BronzeImage.toObject
        { id := "a", src := "in/a.jpg",
          versions := [("thumb-jpeg",
            { id := "thumb-jpeg", format := "jpeg", transform := "thumb",
              path := "out/a-thumb.jpg", hash := "h",
              op := some { type := .GENERATE } })],
          brightness := some 42 }).1.versions.lookup vid
      = (([("thumb-jpeg",
            { id := "thumb-jpeg", format := "jpeg", transform := "thumb",
              path := "out/a-thumb.jpg", hash := "h",
              op := some { type := .GENERATE } : BronzeImageVersion })] :
          VersionMap).lookup vid).map (fun v => { v with op := none }))
    ∧ ∀ kv ∈ (BronzeImage.toObject
        { id := "a", src := "in/a.jpg",
          versions := [("thumb-jpeg",
            { id := "thumb-jpeg", format := "jpeg", transform := "thumb",
              path := "out/a-thumb.jpg", hash := "h",
              op := some { type := .GENERATE } })],
          brightness := some 42 }).1.versions, kv.2.op = none :=
  have h := c10_toObject_strips_ops
    { id := "a", src := "in/a.jpg",
      versions := [("thumb-jpeg",
        { id := "thumb-jpeg", format := "jpeg", transform := "thumb",
          path := "out/a-thumb.jpg", hash := "h",
          op := some { type := .GENERATE } })],
      brightness := some 42 }
  ⟨h.1, h.2.1⟩

/-- C1 (refuting the claim on the code): in the fingerprint-changed
scenario, the first run queues DELETE + GENERATE but never writes the new
hash into the version record, so a second run with identical configuration
and the first run's operations all applied queues DELETE + GENERATE again —
not zero operations.  (Once path, hash and file agree, reconciliation is
quiescent: that is the no-op branch lemma above.) -/
theorem c1_second_run_regenerates_again :
    ((runAddVersions identityDigest scenarioVersions scenarioFS
        [scenarioRequest300]).2.map (fun op => (op.type, op.targetPath))
      = [(.DELETE, some "out/a-thumb.jpg"), (.GENERATE, some "out/a-thumb.jpg")])
    ∧ ((runAddVersions identityDigest
        (clearOps (applyOps (fun _ => (300, 240))
          ((runAddVersions identityDigest scenarioVersions scenarioFS
            [scenarioRequest300]).1, scenarioFS)
          (runAddVersions identityDigest scenarioVersions scenarioFS
            [scenarioRequest300]).2).1)
        (applyOps (fun _ => (300, 240))
          ((runAddVersions identityDigest scenarioVersions scenarioFS
            [scenarioRequest300]).1, scenarioFS)
          (runAddVersions identityDigest scenarioVersions scenarioFS
            [scenarioRequest300]).2).2
        [scenarioRequest300]).2.map (fun op => (op.type, op.targetPath))
      = [(.DELETE, some "out/a-thumb.jpg"), (.GENERATE, some "out/a-thumb.jpg")]) :=
  ⟨rfl, rfl⟩

/-- C2 (refuting the hash-update part of the claim on the code): for an
existing version with stored hash H1 and existing output file, a declared
transform with fingerprint H2 different from H1 queues exactly one DELETE of
the old stored path and exactly one GENERATE of the new declared path and
never a RENAME — but the version's stored hash remains H1, not H2, so the
snapshot written at run end carries the old hash. -/
theorem c2_stale_delete_generate_hash_not_updated :
    ((addVersion identityDigest scenarioVersions scenarioFS
        "thumb" "jpeg" "img/a-thumb.jpg" scenarioT300).2.map
        (fun op => (op.type, op.targetPath))
      = [(.DELETE, some "out/a-thumb.jpg"), (.GENERATE, some "img/a-thumb.jpg")])
    ∧ (((addVersion identityDigest scenarioVersions scenarioFS
        "thumb" "jpeg" "img/a-thumb.jpg" scenarioT300).1.lookup "thumb-jpeg").map
        (fun v => v.hash) = some scenarioHash200)
    ∧ scenarioHash200 ≠ hashTransformObject identityDigest scenarioT300 :=
  ⟨rfl, rfl, by decide⟩

/-- C8 (refuting the claim on the code): `queueBrightnessMeasure` tests
JavaScript truthiness, so an image whose brightness measured exactly 0 and
whose dominant color is cached still queues a MEASURE_BRIGHTNESS operation;
with a nonzero cached brightness and a cached dominant color nothing is
queued, and with either value missing exactly one operation is queued. -/
theorem c8_zero_brightness_requeued :
    queueBrightnessMeasure (some 0) (some (.obj [("r", .num 1)])) []
      = [{ type := .MEASURE_BRIGHTNESS }]
    ∧ queueBrightnessMeasure (some 50) (some (.obj [("r", .num 1)])) [] = []
    ∧ queueBrightnessMeasure none (some (.obj [("r", .num 1)])) []
      = [{ type := .MEASURE_BRIGHTNESS }]
    ∧ queueBrightnessMeasure (some 50) none []
      = [{ type := .MEASURE_BRIGHTNESS }] :=
  ⟨rfl, rfl, rfl, rfl⟩

/-- C9 counterexample: in the §8 end-to-end scenario (source `in/a.jpg`,
transform `thumb`, format `jpeg`, default destination template, destination
folder `out`) the computed file path is `out/a-thumb.jpg` — not the
`out/a-thumb.jpeg` the claim states, because `FORMAT_EXTS` maps `jpeg` to
`jpg`. -/
theorem c9_scenario_path_counterexample :
    resolveOutputPath "out" none "a" "" 0 "thumb" "jpeg" = some "out/a-thumb.jpg"
    ∧ resolveOutputPath "out" none "a" "" 0 "thumb" "jpeg"
        ≠ some "out/a-thumb.jpeg" :=
  ⟨rfl, by decide⟩

/-- C9 amended: for every allowed format the computed destination file path
is the template-filled destination plus a dot plus the fixed extension the
format maps to; the extension mapped to `jpeg` is `jpg`, so the §8 scenario
yields `out/a-thumb.jpg`. -/
theorem c9_output_path_amended (destFolder : String) (destTemplate : Option String)
    (sourceName sourceFolder : String) (sourceIndex : Nat) (tn fn : String)
    (hfn : ALLOWED_FORMATS.contains fn = true) :
    resolveOutputPath destFolder destTemplate sourceName sourceFolder sourceIndex tn fn
      = some (fillTemplate
          (pathJoin destFolder (strOr destTemplate DEFAULTS_transformDest))
          [("sourceName", sourceName), ("sourceFolder", sourceFolder),
           ("sourceIndex", natToString sourceIndex), ("transformName", tn)]
          ++ "." ++ FORMAT_EXTS fn)
    ∧ FORMAT_EXTS "jpeg" = "jpg"
    ∧ resolveOutputPath "out" none "a" "" 0 "thumb" "jpeg"
        = some "out/a-thumb.jpg" := by
  refine ⟨?_, rfl, rfl⟩
  simp only [resolveOutputPath, hfn, if_true]

theorem c9_output_path_amended_witness :
    ALLOWED_FORMATS.contains "jpeg" = true
    ∧ (resolveOutputPath "out" none "a" "" 0 "thumb" "jpeg"
        = some (fillTemplate
            (pathJoin "out" (strOr none DEFAULTS_transformDest))
            [("sourceName", "a"), ("sourceFolder", ""),
             ("sourceIndex", natToString 0), ("transformName", "thumb")]
            ++ "." ++ FORMAT_EXTS "jpeg")
      ∧ FORMAT_EXTS "jpeg" = "jpg"
      ∧ resolveOutputPath "out" none "a" "" 0 "thumb" "jpeg"
          = some "out/a-thumb.jpg") :=
  ⟨rfl, c9_output_path_amended "out" none "a" "" 0 "thumb" "jpeg" rfl⟩

end Bronze

